import Mathlib

/-!
Verification development for the crawl engine of the revize-ai repository
(src/server/crawler.ts, the active puppeteer-based crawler).

JavaScript strings are modelled as `List Char` (named `Str`), so that the
string operations the source performs (`endsWith "/"`, `includes "#"`,
`slice(0,-1)`, `===`, concatenation) become list operations with exact
semantics.  WHATWG `URL` values are modelled by the structure `JsUrl`
together with an executable parser `parseUrl` for absolute http/https URLs
whose components use ordinary URL characters; on that domain the parser and
the serializer `hrefOf` agree exactly with the JavaScript `URL` class
(lower-case scheme and host, default ports 80/443 dropped, empty path
serialized as "/").  Relative-reference resolution is outside the modelled
domain: `resolveUrl` succeeds only on absolute URLs, which is the fragment
all theorems below quantify over.
-/

set_option linter.unusedVariables false

abbrev Str := List Char

def str (s : String) : Str := s.toList

/-- Does `l` begin with the sequence `pat`? (JS `startsWith`). -/
def beginsWith : Str → Str → Bool
  | [], _ => true
  | _ :: _, [] => false
  | c :: cs, x :: xs => x = c && beginsWith cs xs

/-- Does `l` contain `pat` as a contiguous subsequence? (JS `includes`). -/
def containsSeq (pat : Str) : Str → Bool
  | [] => beginsWith pat []
  | x :: xs => beginsWith pat (x :: xs) || containsSeq pat xs

/-- Does the string end with the character `/`? (JS `endsWith("/")`). -/
def endsSlash (l : Str) : Bool :=
  match l.getLast? with
  | some c => c = '/'
  | none => false

/-- Does the string start with `//`? (JS `startsWith("//")`). -/
def twoSlash (l : Str) : Bool :=
  match l with
  | '/' :: '/' :: _ => true
  | _ => false

/-- Decimal representation of a natural number as a character list. -/
def natStr (n : Nat) : Str := (toString n).toList

/-! ### The WHATWG URL model (http/https fragment) -/

inductive UScheme where
  | http
  | https
deriving DecidableEq, Repr

def schemeStr : UScheme → Str
  | .http => str "http"
  | .https => str "https"

/-- Default port string for a scheme (JS `URL` drops these at parse time). -/
def defaultPort : UScheme → Str
  | .http => str "80"
  | .https => str "443"

/-- A parsed absolute http/https URL, mirroring the components of the JS
`URL` object that the crawler reads (`protocol`, `hostname`, `port`,
`pathname` via `href`, `search`, `hash`, `origin`).  The port is kept as its
digit string because the source compares port strings. -/
structure JsUrl where
  scheme : UScheme
  host : Str
  port : Option Str
  pathname : Str
  query : Option Str
  fragment : Option Str
deriving DecidableEq, Repr

/-- JS `url.origin`: scheme://host with an explicit non-default port. -/
def originOf (u : JsUrl) : Str :=
  schemeStr u.scheme ++ str "://" ++ u.host ++
    (match u.port with
     | none => []
     | some p => ':' :: p)

/-- JS `url.href`: full serialization. A `fragment` of `some []` serializes
as a bare trailing `#`, exactly as the `URL` class does. -/
def hrefOf (u : JsUrl) : Str :=
  originOf u ++ u.pathname ++
    (match u.query with
     | none => []
     | some q => '?' :: q) ++
    (match u.fragment with
     | none => []
     | some f => '#' :: f)

/-- JS `url.hash`: `"#" ++ fragment` when the fragment is non-empty, else
the empty string (the `URL` class returns "" for an empty fragment). -/
def jsHash (u : JsUrl) : Str :=
  match u.fragment with
  | none => []
  | some [] => []
  | some f => '#' :: f

/-- Characters accepted in a hostname by the modelled parser. -/
def hostChar (c : Char) : Bool :=
  c.isAlphanum || c = '-' || c = '.'

/-- Characters accepted in a path by the modelled parser: characters the JS
`URL` class leaves unescaped in paths. -/
def pathChar (c : Char) : Bool :=
  c.isAlphanum || c = '-' || c = '.' || c = '_' || c = '~' || c = '/' ||
    c = ':' || c = '@' || c = '&' || c = '=' || c = '+' || c = ',' ||
    c = '!' || c = '$' || c = '*' || c = '%' || c = ';' || c = '(' || c = ')'

def queryChar (c : Char) : Bool := pathChar c || c = '?'

def fragChar (c : Char) : Bool := queryChar c || c = '#'

/-- Strip a literal leading sequence, or fail. -/
def dropLit : Str → Str → Option Str
  | [], l => some l
  | _ :: _, [] => none
  | c :: cs, x :: xs => if x = c then dropLit cs xs else none

/-- Split at the first occurrence of `c`: returns the part before it and,
if `c` occurs, the part after it. -/
def splitOnFirst (c : Char) : Str → Str × Option Str
  | [] => ([], none)
  | x :: xs =>
    if x = c then ([], some xs)
    else
      let r := splitOnFirst c xs
      (x :: r.1, r.2)

/-- A character that does not end the authority component. -/
def notDelim (c : Char) : Bool := !(c = '/' || c = '?' || c = '#')

/-- Validate and normalize a raw port string the way `URL` does: digits
only, no leading zero, and the scheme's default port becomes "no port". -/
def parsePort (scheme : UScheme) : Option Str → Option (Option Str)
  | none => some none
  | some p =>
    if p ≠ [] ∧ (∀ c ∈ p, c.isDigit) ∧ (p.head? ≠ some '0' ∨ p.length = 1) then
      if p = defaultPort scheme then some none else some (some p)
    else none

def parseAfterScheme (scheme : UScheme) (rest : Str) : Option JsUrl :=
  let auth := rest.takeWhile notDelim
  let tail := rest.dropWhile notDelim
  let hp := splitOnFirst ':' auth
  if hp.1 ≠ [] ∧ (∀ c ∈ hp.1, hostChar c) then
    match parsePort scheme hp.2 with
    | none => none
    | some port =>
      let hf := splitOnFirst '#' tail
      let pq := splitOnFirst '?' hf.1
      let pathname := if pq.1 = [] then ['/'] else pq.1
      if (∀ c ∈ pq.1, pathChar c) ∧
         (∀ q, pq.2 = some q → ∀ c ∈ q, queryChar c) ∧
         (∀ f, hf.2 = some f → ∀ c ∈ f, fragChar c) then
        some { scheme := scheme, host := hp.1, port := port,
               pathname := pathname, query := pq.2, fragment := hf.2 }
      else none
  else none

/-- Parser for absolute http/https URLs (the modelled fragment of
`new URL(s)`). -/
def parseUrl (l : Str) : Option JsUrl :=
  match dropLit (str "http://") l with
  | some rest => parseAfterScheme .http rest
  | none =>
    match dropLit (str "https://") l with
    | some rest => parseAfterScheme .https rest
    | none => none

/-- Model of `new URL(url, baseUrl)`, restricted to absolute `url` (on
which the base is ignored, as in JS).  Relative references are outside the
modelled domain. -/
def resolveUrl (url baseUrl : Str) : Option JsUrl := parseUrl url

/-! ### normalizeUrl (src/server/crawler.ts lines 176-210) -/

/-- Lines 179-181: a protocol-relative URL gets the base URL's protocol
(`new URL(baseUrl).protocol + url`; `protocol` includes the colon). -/
def fixProtoRel (url baseUrl : Str) : Option Str :=
  if twoSlash url then
    (parseUrl baseUrl).map (fun b => schemeStr b.scheme ++ ':' :: url)
  else some url

/-- Is the hash a client-side route, i.e. does it start with `#/`? -/
def hashIsRoute (h : Str) : Bool :=
  match h with
  | '#' :: '/' :: _ => true
  | _ => false

/-- Lines 188-193: drop a simple anchor fragment (`parsed.hash = ""`),
keep fragments that start with `#/`. -/
def stripSimpleHash (u : JsUrl) : JsUrl :=
  if jsHash u ≠ [] ∧ ¬ hashIsRoute (jsHash u) then { u with fragment := none }
  else u

/-- Lines 200-203: remove one trailing slash unless the string contains a
`#` or equals the bare origin root. -/
def stripSlash (n : Str) (origin : Str) : Str :=
  if endsSlash n && !(n.contains '#') && !(n == origin ++ ['/']) then n.dropLast
  else n

/-- `normalizeUrl(url, baseUrl)` from src/server/crawler.ts lines 176-210:
returns the canonical string, or `none` when the URL does not parse. -/
def normalizeUrl (url baseUrl : Str) : Option Str :=
  match fixProtoRel url baseUrl with
  | none => none
  | some url1 =>
    match resolveUrl url1 baseUrl with
    | none => none
    | some parsed0 =>
      let parsed := stripSimpleHash parsed0
      some (stripSlash (hrefOf parsed) (originOf parsed))

/-! ### isInternalLink (src/server/crawler.ts lines 212-238) -/

/-- `isInternalLink(url, baseOrigin)` from src/server/crawler.ts lines
212-238: same hostname and same explicit-or-scheme-default port. -/
def isInternalLink (url baseOrigin : Str) : Bool :=
  match parseUrl url with
  | none => false
  | some parsed =>
    let baseObj :=
      match parseUrl baseOrigin with
      | some b => some b
      | none => parseUrl (str "http://" ++ baseOrigin)
    match baseObj with
    | none => false
    | some baseUrlObj =>
      let sameHost := parsed.host == baseUrlObj.host
      let parsedPort :=
        match parsed.port with
        | some p => p
        | none => if parsed.scheme = UScheme.https then str "443" else str "80"
      let basePort :=
        match baseUrlObj.port with
        | some p => p
        | none => if baseUrlObj.scheme = UScheme.https then str "443" else str "80"
      sameHost && parsedPort == basePort

/-! ### crawlPage retry skeleton (src/server/crawler.ts lines 474-1237) -/

def MAX_RETRIES : Nat := 2

/-- Outcome of one navigation attempt inside `crawlPage`, as seen by the
retry logic at lines 930-960 and 1193-1236. -/
inductive AttemptOutcome where
  | success (info : List Str)
  | httpError (status : Nat)
  | rateLimited (retryAfter : Option Nat)
  | thrown (msg : Str) (nameIsTimeoutError : Bool)
deriving Repr

/-- The error classification at lines 1204-1208: retry only messages that
look transient. -/
def isRetryableError (msg : Str) (nameIsTimeoutError : Bool) : Bool :=
  containsSeq (str "timeout") msg ||
  containsSeq (str "Navigation timeout") msg ||
  containsSeq (str "net::ERR") msg ||
  nameIsTimeoutError

inductive FetchStatus where
  | ok
  | broken
  | dup
deriving DecidableEq, Repr

/-- What one attempt of `crawlPage` decides: either return a result or
retry with the incremented retry counter. -/
inductive FetchStep where
  | done (status : FetchStatus)
  | retry (nextRetryCount : Nat)
deriving DecidableEq, Repr

/-- One attempt of `crawlPage` (lines 930-960 and 1193-1236): a 429
response always recurses with `retryCount + 1` and no bound check; a non-ok
response returns `broken`; a thrown transient error retries only while
`retryCount < MAX_RETRIES`; everything else returns. -/
def crawlPageStep (o : AttemptOutcome) (retryCount : Nat) : FetchStep :=
  match o with
  | .rateLimited _ => .retry (retryCount + 1)
  | .httpError _ => .done .broken
  | .success _ => .done .ok
  | .thrown msg nameT =>
    if retryCount < MAX_RETRIES ∧ isRetryableError msg nameT then
      .retry (retryCount + 1)
    else .done .broken

/-- Run `crawlPage` against a sequence of attempt outcomes with `fuel`
attempts allowed; `none` means the call has not returned within `fuel`
attempts. -/
def crawlPageRun (responses : Nat → AttemptOutcome) : Nat → Nat → Nat → Option FetchStatus
  | 0, _, _ => none
  | fuel + 1, attempt, retryCount =>
    match crawlPageStep (responses attempt) retryCount with
    | .done st => some st
    | .retry rc => crawlPageRun responses fuel (attempt + 1) rc

/-! ### The frontier scheduler (src/server/crawler.ts lines 1246-1496) -/

inductive PStatus where
  | ok
  | broken
  | duplicate
deriving DecidableEq, Repr

/-- The `PageInfo` a `crawlPage` call resolves to. -/
structure PageInfo where
  url : Str
  title : Str
  status : PStatus
  links : List Str
deriving DecidableEq, Repr

/-- A stored page record: `{...pageInfo, id, parentId}` with the depth
overwritten by the scheduler (lines 1322-1325). -/
structure PageRec where
  url : Str
  title : Str
  status : PStatus
  depth : Nat
  links : List Str
  id : Str
  parentId : Option Str
deriving DecidableEq, Repr

/-- A frontier queue entry `{url, depth, parentId}` (line 1276). -/
structure FrontierEntry where
  url : Str
  depth : Nat
  parentId : Option Str
deriving DecidableEq, Repr

/-- The mutable state of the crawl loop.  `fetched` and `enqLog` are
history variables recording every `crawlPage` call and every queue push;
they affect nothing and exist only so theorems can speak about fetch counts
and enqueue counts. -/
structure CrawlState where
  visited : List Str
  queue : List FrontierEntry
  pages : List (Str × PageRec)
  duplicates : List Str
  idCounter : Nat
  fetched : List Str
  enqLog : List FrontierEntry
deriving Repr

/-- The crawl's collaborators, closed over by the loop: `fetch` models
`crawlPage browser · depth baseOrigin` (always resolves, never throws),
`robotsAllowed` models `robots === null || robots.isAllowed(url, USER_AGENT)`,
and `internal` models `isInternalLink(·, baseOrigin)`. -/
structure CrawlEnv where
  fetch : Str → PageInfo
  robotsAllowed : Str → Bool
  internal : Str → Bool
  maxDepth : Nat

/-- JS `Map.set`: overwrite in place if the key exists, else append. -/
def mapSet (m : List (Str × PageRec)) (k : Str) (v : PageRec) : List (Str × PageRec) :=
  if (m.map Prod.fst).contains k then
    m.map (fun kv => if kv.1 == k then (k, v) else kv)
  else m ++ [(k, v)]

/-- Lines 1328-1348: the links of a fetched page that get pushed — internal
and not yet visited, at depth+1, with the new record as parent. -/
def pushLinks (env : CrawlEnv) (e : FrontierEntry) (id : Str) (info : PageInfo)
    (visited : List Str) : List FrontierEntry :=
  (info.links.filter (fun l => env.internal l && !(visited.contains l))).map
    (fun l => { url := l, depth := e.depth + 1, parentId := some id })

/-- One iteration of the main crawl loop (lines 1295-1386): dequeue, then
in order: duplicate guard, depth guard, robots guard, fetch + record +
expand. -/
def crawlStep (env : CrawlEnv) (s : CrawlState) : CrawlState :=
  match s.queue with
  | [] => s
  | e :: rest =>
    if s.visited.contains e.url then
      if s.duplicates.contains e.url then { s with queue := rest }
      else { s with queue := rest, duplicates := s.duplicates ++ [e.url] }
    else if env.maxDepth < e.depth then { s with queue := rest }
    else if !(env.robotsAllowed e.url) then { s with queue := rest }
    else
      let info := env.fetch e.url
      let id := str "node-" ++ natStr s.idCounter
      let rec0 : PageRec :=
        { url := info.url, title := info.title, status := info.status,
          depth := e.depth, links := info.links, id := id, parentId := e.parentId }
      let visited1 := s.visited ++ [e.url]
      let newLinks := if e.depth < env.maxDepth then pushLinks env e id info visited1 else []
      { visited := visited1,
        queue := rest ++ newLinks,
        pages := mapSet s.pages e.url rec0,
        duplicates := s.duplicates,
        idCounter := s.idCounter + 1,
        fetched := s.fetched ++ [e.url],
        enqLog := s.enqLog ++ newLinks }

/-- The loop guard `queue.length > 0 && pages.size < 100` (line 1295),
inverted: `true` when the loop exits. -/
def crawlDone (s : CrawlState) : Bool :=
  s.queue.isEmpty || decide (100 ≤ s.pages.length)

/-- Run the crawl loop for at most `fuel` iterations; once `crawlDone`
holds the state is final. -/
def crawlLoop : Nat → CrawlEnv → CrawlState → CrawlState
  | 0, _, s => s
  | n + 1, env, s => if crawlDone s then s else crawlLoop n env (crawlStep env s)

/-- The state just after line 1289: the normalized start URL queued at
depth 0. -/
def initState (u0 : Str) : CrawlState :=
  { visited := [], queue := [{ url := u0, depth := 0, parentId := none }],
    pages := [], duplicates := [], idCounter := 0, fetched := [],
    enqLog := [{ url := u0, depth := 0, parentId := none }] }

/-- Lines 1406-1411: flip every recorded duplicate URL's status. -/
def markDuplicates (dups : List Str) (m : List (Str × PageRec)) : List (Str × PageRec) :=
  dups.foldl
    (fun acc u =>
      acc.map (fun kv => if kv.1 == u then (kv.1, { kv.2 with status := .duplicate }) else kv))
    m

/-- Lines 1391-1411: synthesize a root record when no page was recorded,
then mark duplicates. -/
def prepPages (normalizedStart : Str) (s : CrawlState) : List (Str × PageRec) :=
  let pages :=
    if s.pages.isEmpty then
      [(normalizedStart,
        { url := normalizedStart, title := str "Home", status := .ok, depth := 0,
          links := [], id := str "node-0", parentId := none })]
    else s.pages
  markDuplicates s.duplicates pages

/-- Lines 1413-1415: SPA detection — any page key or any discovered link
contains `#/`. -/
def isSPAOf (pages : List (Str × PageRec)) : Bool :=
  pages.any (fun kv => containsSeq (str "#/") kv.1) ||
  pages.any (fun kv => kv.2.links.any (fun l => containsSeq (str "#/") l))

/-- A sitemap tree node (`SitemapNode` of shared/schema.ts): the `children`
field is absent (`none`) or present. -/
inductive SitemapNode where
  | mk (id url title : Str) (depth : Nat) (status : PStatus)
       (children : Option (List SitemapNode))

def nodeId : SitemapNode → Str
  | .mk i _ _ _ _ _ => i

def nodeUrl : SitemapNode → Str
  | .mk _ u _ _ _ _ => u

def nodeTitle : SitemapNode → Str
  | .mk _ _ t _ _ _ => t

def nodeStatus : SitemapNode → PStatus
  | .mk _ _ _ _ st _ => st

def nodeChildren : SitemapNode → Option (List SitemapNode)
  | .mk _ _ _ _ _ c => c

/-- Code-point order on character lists: the executable stand-in for the
`localeCompare` comparator used at line 1549.  `localeCompare` is
locale-dependent (e.g. it may place lower-case before upper-case letters),
so the two orders can differ on mixed-case URLs; no theorem below depends
on the resulting element ORDER, only on the sorted list being a
permutation of its input, which holds for any comparator. -/
def strLe : Str → Str → Bool
  | [], _ => true
  | _ :: _, [] => false
  | a :: as, b :: bs => if a = b then strLe as bs else decide (a.toNat < b.toNat)

def nodeLe (a b : SitemapNode) : Prop := strLe (nodeUrl a) (nodeUrl b) = true

instance : DecidableRel nodeLe := fun a b => decEq _ _

/-- `buildFlatSitemap(pages, rootUrl)` from lines 1498-1561: keep only the
`ok` records, pick the record whose url equals `rootUrl` (else the first),
and list every other `ok` record as a direct child, sorted by url. -/
def buildFlatSitemap (pages : List (Str × PageRec)) (rootUrl : Str) : SitemapNode :=
  let pageArray := (pages.map Prod.snd).filter (fun p => p.status == .ok)
  match pageArray with
  | [] => .mk (str "root") rootUrl (str "Root") 0 .ok (some [])
  | p0 :: _ =>
    let rootPage := ((pageArray.find? (fun p => p.url == rootUrl)).getD p0)
    let allUrls :=
      (pageArray.filter (fun p => !(p.url == rootUrl))).map
        (fun p => SitemapNode.mk p.id p.url (if p.title = [] then p.url else p.title) 1 p.status none)
    let sorted := allUrls.insertionSort nodeLe
    .mk rootPage.id rootPage.url
      (if rootPage.title = [] then rootPage.url else rootPage.title) 0 rootPage.status
      (some sorted)

/-- The recursive `buildNode` of `buildTree` (lines 1594-1612), with a fuel
argument: the JS recursion terminates exactly when the `parentId` links are
acyclic, and `pages.length` fuel suffices in that case. -/
def buildNode (pageArray : List PageRec) : Nat → PageRec → SitemapNode
  | 0, p =>
    .mk p.id p.url (if p.title = [] then p.url else p.title) p.depth p.status none
  | fuel + 1, p =>
    let children := (pageArray.filter (fun q => q.parentId == some p.id)).map
      (buildNode pageArray fuel)
    .mk p.id p.url (if p.title = [] then p.url else p.title) p.depth p.status
      (if children.isEmpty then none else some children)

/-- `buildTree(pages, rootUrl)` from lines 1563-1617. -/
def buildTree (pages : List (Str × PageRec)) (rootUrl : Str) : SitemapNode :=
  let pageArray := pages.map Prod.snd
  match pageArray with
  | [] => .mk (str "root") rootUrl (str "Root") 0 .ok (some [])
  | p0 :: _ =>
    let rootPage := ((pageArray.find? (fun p => p.url == rootUrl)).getD p0)
    buildNode pageArray pageArray.length rootPage

/-- `escapeXml` (lines 1637-1644); the chained `.replace` calls amount to a
per-character substitution (39 is the code of the apostrophe). -/
def escChar (c : Char) : Str :=
  if c = '&' then str "&amp;"
  else if c = '<' then str "&lt;"
  else if c = '>' then str "&gt;"
  else if c = '"' then str "&quot;"
  else if c = Char.ofNat 39 then str "&apos;"
  else [c]

def escapeXml (l : Str) : Str := l.flatMap escChar

/-- `Math.max(0.1, 1 - depth * 0.2).toFixed(1)` (line 1623), evaluated for
each natural depth: the IEEE-754 computation lands on exactly these
strings. -/
def priorityStr : Nat → Str
  | 0 => str "1.0"
  | 1 => str "0.8"
  | 2 => str "0.6"
  | 3 => str "0.4"
  | 4 => str "0.2"
  | _ + 5 => str "0.1"

def xmlHeader : Str :=
  str "<?xml version=\"1.0\" encoding=\"UTF-8\"?>\n<urlset xmlns=\"http://www.sitemaps.org/schemas/sitemap/0.9\">\n"

def xmlFooter : Str := str "\n</urlset>"

/-- `generateXml(pages)` from lines 1619-1635: one `<url>` entry per `ok`
record, joined by newlines inside the urlset wrapper. -/
def generateXml (pages : List (Str × PageRec)) : Str :=
  let urls :=
    ((pages.map Prod.snd).filter (fun p => p.status == .ok)).map
      (fun p =>
        str "  <url>\n    <loc>" ++ escapeXml p.url ++ str "</loc>\n    <priority>" ++
          priorityStr p.depth ++ str "</priority>\n  </url>")
  xmlHeader ++ List.intercalate (str "\n") urls ++ xmlFooter

/-- The minimal single-entry fallback document of lines 1441-1447. -/
def minimalXml (normalizedStart : Str) : Str :=
  str "<?xml version=\"1.0\" encoding=\"UTF-8\"?>\n<urlset xmlns=\"http://www.sitemaps.org/schemas/sitemap/0.9\">\n  <url>\n    <loc>" ++
    escapeXml normalizedStart ++
    str "</loc>\n    <priority>1.0</priority>\n  </url>\n</urlset>"

/-- The `CrawlResult` returned at lines 1484-1490. -/
structure CrawlResultModel where
  sitemap : SitemapNode
  pagesFound : Nat
  brokenLinks : Nat
  duplicatePages : Nat
  xmlContent : Str

/-- Lines 1388-1490: everything `crawlWebsite` does after the loop exits. -/
def finishCrawl (normalizedStart : Str) (s : CrawlState) : CrawlResultModel :=
  let pages := prepPages normalizedStart s
  let isSPA := isSPAOf pages
  let sitemap :=
    if isSPA then buildFlatSitemap pages normalizedStart
    else buildTree pages normalizedStart
  let xml0 := generateXml pages
  let xmlContent := if xml0.isEmpty then minimalXml normalizedStart else xml0
  let brokenCount := ((pages.map Prod.snd).filter (fun p => p.status == .broken)).length
  { sitemap := sitemap,
    pagesFound := pages.length,
    brokenLinks := brokenCount,
    duplicatePages := s.duplicates.length,
    xmlContent := xmlContent }

/-- `crawlWebsite(startUrl, maxDepth, onProgress)` (lines 1246-1496),
without the I/O: normalize the seed against itself (line 1281), run the
loop, post-process.  `none` corresponds to the `throw new Error("Invalid
URL")` at line 1283. -/
def crawlWebsiteModel (env : CrawlEnv) (startUrl : Str) (fuel : Nat) :
    Option CrawlResultModel :=
  (normalizeUrl startUrl startUrl).map
    (fun normalizedStart =>
      finishCrawl normalizedStart (crawlLoop fuel env (initState normalizedStart)))

/-! ### Splitter lemmas -/

theorem dropLit_append (a l : Str) : dropLit a (a ++ l) = some l := by
  induction a with
  | nil => rfl
  | cons c cs ih => simp [dropLit, ih]

theorem takeWhile_append_all {p : Char → Bool} {a b : Str}
    (ha : ∀ x ∈ a, p x = true) (hb : ∀ y ys, b = y :: ys → p y = false) :
    (a ++ b).takeWhile p = a := by
  induction a with
  | nil =>
    cases b with
    | nil => rfl
    | cons y ys => simp [List.takeWhile, hb y ys rfl]
  | cons x xs ih =>
    have hx : p x = true := ha x (by simp)
    simp only [List.cons_append, List.takeWhile_cons, hx, if_true]
    rw [ih (fun x hx => ha x (by simp [hx]))]

theorem dropWhile_append_all {p : Char → Bool} {a b : Str}
    (ha : ∀ x ∈ a, p x = true) (hb : ∀ y ys, b = y :: ys → p y = false) :
    (a ++ b).dropWhile p = b := by
  induction a with
  | nil =>
    cases b with
    | nil => rfl
    | cons y ys => simp [List.dropWhile, hb y ys rfl]
  | cons x xs ih =>
    have hx : p x = true := ha x (by simp)
    simp only [List.cons_append, List.dropWhile_cons, hx, if_true]
    exact ih (fun x hx => ha x (by simp [hx]))

theorem dropWhile_head_false {p : Char → Bool} {l : Str} {x : Char} {xs : Str}
    (h : l.dropWhile p = x :: xs) : p x = false := by
  induction l with
  | nil => simp [List.dropWhile] at h
  | cons y ys ih =>
    by_cases hy : p y
    · exact ih (by simpa [List.dropWhile, hy] using h)
    · simp only [List.dropWhile, hy] at h
      cases h
      simpa using hy

theorem splitOnFirst_not_mem {c : Char} {l : Str} (h : c ∉ l) :
    splitOnFirst c l = (l, none) := by
  induction l with
  | nil => rfl
  | cons x xs ih =>
    have hx : ¬ x = c := fun he => h (by simp [he])
    simp [splitOnFirst, hx, ih (fun hm => h (by simp [hm]))]

theorem splitOnFirst_append {c : Char} {a b : Str} (h : c ∉ a) :
    splitOnFirst c (a ++ c :: b) = (a, some b) := by
  induction a with
  | nil => simp [splitOnFirst]
  | cons x xs ih =>
    have hx : ¬ x = c := fun he => h (by simp [he])
    simp [splitOnFirst, hx, ih (fun hm => h (by simp [hm]))]

theorem splitOnFirst_sound_none {c : Char} {l : Str}
    (h : (splitOnFirst c l).2 = none) : (splitOnFirst c l).1 = l ∧ c ∉ l := by
  induction l with
  | nil => simp [splitOnFirst]
  | cons x xs ih =>
    by_cases hx : x = c
    · simp [splitOnFirst, hx] at h
    · simp only [splitOnFirst, hx, if_false] at h ⊢
      rcases ih h with ⟨h1, h2⟩
      refine ⟨by simp [h1], ?_⟩
      intro hm
      rcases List.mem_cons.mp hm with he | hm2
      · exact hx he.symm
      · exact h2 hm2

theorem splitOnFirst_sound_some {c : Char} {l b : Str}
    (h : (splitOnFirst c l).2 = some b) :
    l = (splitOnFirst c l).1 ++ c :: b ∧ c ∉ (splitOnFirst c l).1 := by
  induction l with
  | nil => simp [splitOnFirst] at h
  | cons x xs ih =>
    by_cases hx : x = c
    · simp only [splitOnFirst, hx, if_true] at h ⊢
      cases h
      simp [hx]
    · simp only [splitOnFirst, hx, if_false] at h ⊢
      rcases ih h with ⟨h1, h2⟩
      constructor
      · rw [List.cons_append]
        exact congrArg (x :: ·) h1
      · intro hm
        rcases List.mem_cons.mp hm with he | hm2
        · exact hx he.symm
        · exact h2 hm2

/-! ### Well-formed URLs and the parse/serialize round trip -/

/-- The shape invariant every `parseUrl` result satisfies; on records of
this shape `hrefOf` is a right inverse of `parseUrl`. -/
structure GoodUrl (u : JsUrl) : Prop where
  host_ne : u.host ≠ []
  host_ok : ∀ c ∈ u.host, hostChar c = true
  port_ok : ∀ p, u.port = some p →
    p ≠ [] ∧ (∀ c ∈ p, c.isDigit = true) ∧ (p.head? ≠ some '0' ∨ p.length = 1) ∧
      p ≠ defaultPort u.scheme
  path_slash : ∃ t, u.pathname = '/' :: t
  path_ok : ∀ c ∈ u.pathname, pathChar c = true
  query_ok : ∀ q, u.query = some q → ∀ c ∈ q, queryChar c = true
  frag_ok : ∀ f, u.fragment = some f → ∀ c ∈ f, fragChar c = true

theorem notDelim_false_cases {c : Char} (h : notDelim c = false) :
    c = '/' ∨ c = '?' ∨ c = '#' := by
  by_cases h1 : c = '/'
  · exact Or.inl h1
  by_cases h2 : c = '?'
  · exact Or.inr (Or.inl h2)
  by_cases h3 : c = '#'
  · exact Or.inr (Or.inr h3)
  simp [notDelim, h1, h2, h3] at h

theorem hostChar_notDelim {c : Char} (h : hostChar c = true) : notDelim c = true := by
  by_contra hc
  rcases notDelim_false_cases (Bool.eq_false_iff.mpr hc) with h1 | h1 | h1 <;>
    (subst h1; exact absurd h (by decide))

theorem digit_notDelim {c : Char} (h : c.isDigit = true) : notDelim c = true := by
  by_contra hc
  rcases notDelim_false_cases (Bool.eq_false_iff.mpr hc) with h1 | h1 | h1 <;>
    (subst h1; exact absurd h (by decide))

theorem pathChar_ne_hash {c : Char} (h : pathChar c = true) : ¬ c = '#' := by
  intro h1; subst h1; exact absurd h (by decide)

theorem pathChar_ne_query {c : Char} (h : pathChar c = true) : ¬ c = '?' := by
  intro h1; subst h1; exact absurd h (by decide)

theorem queryChar_ne_hash {c : Char} (h : queryChar c = true) : ¬ c = '#' := by
  intro h1; subst h1; exact absurd h (by decide)

theorem hostChar_ne_colon {c : Char} (h : hostChar c = true) : ¬ c = ':' := by
  intro h1; subst h1; exact absurd h (by decide)

/-- The serialized authority-and-after body of a well-formed URL, split the
way `parseAfterScheme` splits it. -/
theorem parseAfterScheme_append {scheme : UScheme} {u : JsUrl}
    (hs : u.scheme = scheme) (hu : GoodUrl u) :
    parseAfterScheme scheme
      (u.host ++
        (match u.port with | none => [] | some p => ':' :: p) ++
        (u.pathname ++
          (match u.query with | none => [] | some q => '?' :: q) ++
          (match u.fragment with | none => [] | some f => '#' :: f))) = some u := by
  obtain ⟨t, hpath⟩ := hu.path_slash
  set portPart : Str := (match u.port with | none => [] | some p => ':' :: p) with hportPart
  set qPart : Str := (match u.query with | none => [] | some q => '?' :: q) with hqPart
  set fPart : Str := (match u.fragment with | none => [] | some f => '#' :: f) with hfPart
  set tailPart : Str := u.pathname ++ qPart ++ fPart with htailPart
  have hauth_all : ∀ x ∈ u.host ++ portPart, notDelim x = true := by
    intro x hx
    rcases List.mem_append.mp hx with hx | hx
    · exact hostChar_notDelim (hu.host_ok x hx)
    · rw [hportPart] at hx
      cases hport : u.port with
      | none => simp [hport] at hx
      | some p =>
        simp only [hport] at hx
        rcases List.mem_cons.mp hx with he | hxp
        · subst he; decide
        · exact digit_notDelim ((hu.port_ok p hport).2.1 x hxp)
  have htail_cons : tailPart = '/' :: (t ++ qPart ++ fPart) := by
    rw [htailPart, hpath]; simp
  have hb : ∀ y ys, tailPart = y :: ys → notDelim y = false := by
    intro y ys hy
    rw [htail_cons] at hy
    cases hy
    decide
  have htake : ((u.host ++ portPart) ++ tailPart).takeWhile notDelim = u.host ++ portPart :=
    takeWhile_append_all hauth_all hb
  have hdrop : ((u.host ++ portPart) ++ tailPart).dropWhile notDelim = tailPart :=
    dropWhile_append_all hauth_all hb
  have hsplit1 : splitOnFirst ':' (u.host ++ portPart) = (u.host, u.port) := by
    have hnc : ':' ∉ u.host := fun hm => hostChar_ne_colon (hu.host_ok ':' hm) rfl
    rw [hportPart]
    cases hport : u.port with
    | none => simpa using splitOnFirst_not_mem hnc
    | some p => simpa using splitOnFirst_append hnc
  have hnh_path : '#' ∉ u.pathname := fun hm => pathChar_ne_hash (hu.path_ok '#' hm) rfl
  have hnh_pq : '#' ∉ u.pathname ++ qPart := by
    intro hm
    rcases List.mem_append.mp hm with hm | hm
    · exact hnh_path hm
    · rw [hqPart] at hm
      cases hq : u.query with
      | none => simp [hq] at hm
      | some q =>
        simp only [hq] at hm
        rcases List.mem_cons.mp hm with he | hmq
        · exact absurd he (by decide)
        · exact queryChar_ne_hash (hu.query_ok q hq '#' hmq) rfl
  have hsplit2 : splitOnFirst '#' tailPart = (u.pathname ++ qPart, u.fragment) := by
    rw [htailPart, hfPart]
    cases hf : u.fragment with
    | none => simpa using splitOnFirst_not_mem hnh_pq
    | some f => simpa using splitOnFirst_append hnh_pq
  have hnq_path : '?' ∉ u.pathname := fun hm => pathChar_ne_query (hu.path_ok '?' hm) rfl
  have hsplit3 : splitOnFirst '?' (u.pathname ++ qPart) = (u.pathname, u.query) := by
    rw [hqPart]
    cases hq : u.query with
    | none => simpa using splitOnFirst_not_mem hnq_path
    | some q => simpa using splitOnFirst_append hnq_path
  have hparseport : parsePort scheme u.port = some u.port := by
    cases hport : u.port with
    | none => rfl
    | some p =>
      obtain ⟨hp1, hp2, hp3, hp4⟩ := hu.port_ok p hport
      rw [hs] at hp4
      simp only [parsePort]
      rw [if_pos ⟨hp1, hp2, hp3⟩, if_neg hp4]
  have hpne : u.pathname ≠ [] := by rw [hpath]; simp
  simp only [parseAfterScheme, ← List.append_assoc, htake, hdrop, hsplit1]
  rw [if_pos ⟨hu.host_ne, hu.host_ok⟩]
  rw [hparseport]
  simp only [hsplit2, hsplit3]
  rw [if_neg hpne]
  rw [if_pos ⟨hu.path_ok, hu.query_ok, hu.frag_ok⟩]
  cases u
  simp_all

theorem hrefOf_http {u : JsUrl} (hs : u.scheme = .http) :
    hrefOf u = str "http://" ++
      (u.host ++ (match u.port with | none => [] | some p => ':' :: p) ++
        (u.pathname ++ (match u.query with | none => [] | some q => '?' :: q) ++
          (match u.fragment with | none => [] | some f => '#' :: f))) := by
  simp only [hrefOf, originOf, hs, schemeStr]
  simp [str, List.append_assoc]

theorem hrefOf_https {u : JsUrl} (hs : u.scheme = .https) :
    hrefOf u = str "https://" ++
      (u.host ++ (match u.port with | none => [] | some p => ':' :: p) ++
        (u.pathname ++ (match u.query with | none => [] | some q => '?' :: q) ++
          (match u.fragment with | none => [] | some f => '#' :: f))) := by
  simp only [hrefOf, originOf, hs, schemeStr]
  simp [str, List.append_assoc]

theorem dropLit_http_of_https (body : Str) :
    dropLit (str "http://") (str "https://" ++ body) = none := by
  rfl

/-- Serialization inverts parsing on well-formed URL records. -/
theorem parse_hrefOf {u : JsUrl} (hu : GoodUrl u) : parseUrl (hrefOf u) = some u := by
  cases hs : u.scheme with
  | http =>
    rw [hrefOf_http hs]
    simp only [parseUrl, dropLit_append]
    exact parseAfterScheme_append hs hu
  | https =>
    rw [hrefOf_https hs]
    simp only [parseUrl, dropLit_http_of_https, dropLit_append]
    exact parseAfterScheme_append hs hu

theorem splitOnFirst_fst_not_mem (c : Char) (l : Str) : c ∉ (splitOnFirst c l).1 := by
  induction l with
  | nil => simp [splitOnFirst]
  | cons x xs ih =>
    by_cases hx : x = c
    · simp [splitOnFirst, hx]
    · simp only [splitOnFirst, hx, if_false]
      intro hm
      rcases List.mem_cons.mp hm with he | hm2
      · exact hx he.symm
      · exact ih hm2

theorem splitOnFirst_decompose (c : Char) (l : Str) :
    l = (splitOnFirst c l).1 ++
      (match (splitOnFirst c l).2 with | none => [] | some b => c :: b) := by
  cases hq : (splitOnFirst c l).2 with
  | none => simp [(splitOnFirst_sound_none hq).1]
  | some b => simpa using (splitOnFirst_sound_some hq).1

theorem parsePort_good {scheme : UScheme} {po : Option Str} {port : Option Str}
    (h : parsePort scheme po = some port) :
    ∀ p, port = some p →
      p ≠ [] ∧ (∀ c ∈ p, c.isDigit = true) ∧ (p.head? ≠ some '0' ∨ p.length = 1) ∧
        p ≠ defaultPort scheme := by
  intro p hp
  subst hp
  cases po with
  | none => simp [parsePort] at h
  | some q =>
    simp only [parsePort] at h
    split at h
    · split at h
      · simp at h
      · rename_i hq hqd
        have hqp : q = p := by
          injection h with h1
          injection h1
        subst hqp
        exact ⟨hq.1, hq.2.1, hq.2.2, hqd⟩
    · simp at h

theorem parseAfterScheme_good {scheme : UScheme} {rest : Str} {u : JsUrl}
    (h : parseAfterScheme scheme rest = some u) : GoodUrl u := by
  simp only [parseAfterScheme] at h
  split at h
  · rename_i hhost
    split at h
    · exact absurd h (by simp)
    · rename_i port hport
      split at h
      · rename_i hvalid
        obtain ⟨hpathv, hqv, hfv⟩ := hvalid
        obtain ⟨hh1, hh2⟩ := hhost
        injection h with h
        subst h
        constructor
        case host_ne => exact hh1
        case host_ok => exact hh2
        case port_ok => exact parsePort_good hport
        case path_slash =>
          split
          · exact ⟨[], rfl⟩
          · rename_i hne
            cases hc : (splitOnFirst '?' (splitOnFirst '#' (rest.dropWhile notDelim)).1).1 with
            | nil => exact absurd hc hne
            | cons x xs =>
              refine ⟨xs, ?_⟩
              have e1 := splitOnFirst_decompose '#' (rest.dropWhile notDelim)
              have e2 := splitOnFirst_decompose '?' ((splitOnFirst '#' (rest.dropWhile notDelim)).1)
              rw [hc] at e2
              rw [e2] at e1
              have hx : notDelim x = false := dropWhile_head_false e1
              rcases notDelim_false_cases hx with h1 | h1 | h1
              · subst h1; rfl
              · exfalso
                refine splitOnFirst_fst_not_mem '?' ((splitOnFirst '#' (rest.dropWhile notDelim)).1) ?_
                rw [hc, h1]
                simp
              · exfalso
                refine splitOnFirst_fst_not_mem '#' (rest.dropWhile notDelim) ?_
                have e2b := splitOnFirst_decompose '?' ((splitOnFirst '#' (rest.dropWhile notDelim)).1)
                rw [e2b, hc, h1]
                simp
        case path_ok =>
          split
          · intro c hc
            rcases List.mem_singleton.mp hc with rfl
            decide
          · exact hpathv
        case query_ok => exact hqv
        case frag_ok => exact hfv
      · exact absurd h (by simp)
  · exact absurd h (by simp)

/-- Every `parseUrl` result is well-formed. -/
theorem parseUrl_good {l : Str} {u : JsUrl} (h : parseUrl l = some u) : GoodUrl u := by
  simp only [parseUrl] at h
  split at h
  · exact parseAfterScheme_good h
  · split at h
    · exact parseAfterScheme_good h
    · exact absurd h (by simp)

/-! ### Behaviour of normalizeUrl on its own output -/

theorem dropLast_append_ne {α : Type} {a b : List α} (hb : b ≠ []) :
    (a ++ b).dropLast = a ++ b.dropLast :=
  List.dropLast_append_of_ne_nil a hb

theorem dropLast_cons_ne {x : Char} {l : Str} (h : l ≠ []) :
    (x :: l).dropLast = x :: l.dropLast :=
  List.dropLast_cons_of_ne_nil h

theorem endsSlash_ne_nil {l : Str} (h : endsSlash l = true) : l ≠ [] := by
  intro hl
  subst hl
  simp [endsSlash] at h

theorem endsSlash_decompose {l : Str} (h : endsSlash l = true) :
    l = l.dropLast ++ ['/'] := by
  unfold endsSlash at h
  cases hg : l.getLast? with
  | none => rw [hg] at h; simp at h
  | some c =>
    rw [hg] at h
    have hc : c = '/' := by simpa using h
    subst hc
    obtain ⟨hne, heq⟩ := List.mem_getLast?_eq_getLast (Option.mem_def.mpr hg)
    conv_lhs => rw [← List.dropLast_append_getLast hne]
    rw [← heq]

theorem contains_hash_iff {l : Str} : l.contains '#' = true ↔ '#' ∈ l := by
  simp [List.contains, List.elem_iff]

theorem stripSimpleHash_of_none {u : JsUrl} (hf : u.fragment = none) :
    stripSimpleHash u = u := by
  simp [stripSimpleHash, jsHash, hf]

theorem stripSimpleHash_idem (u : JsUrl) :
    stripSimpleHash (stripSimpleHash u) = stripSimpleHash u := by
  by_cases h : jsHash u ≠ [] ∧ ¬ hashIsRoute (jsHash u)
  · simp only [stripSimpleHash, if_pos h]
    simp [stripSimpleHash, jsHash]
  · simp only [stripSimpleHash, if_neg h]

theorem goodUrl_stripSimpleHash {u : JsUrl} (hu : GoodUrl u) :
    GoodUrl (stripSimpleHash u) := by
  by_cases h : jsHash u ≠ [] ∧ ¬ hashIsRoute (jsHash u)
  · simp only [stripSimpleHash, if_pos h]
    exact { host_ne := hu.host_ne, host_ok := hu.host_ok, port_ok := hu.port_ok,
            path_slash := hu.path_slash, path_ok := hu.path_ok,
            query_ok := hu.query_ok, frag_ok := fun f hf => by simp at hf }
  · simp only [stripSimpleHash, if_neg h]
    exact hu

theorem hash_mem_hrefOf {u : JsUrl} {f : Str} (hf : u.fragment = some f) :
    '#' ∈ hrefOf u := by
  simp [hrefOf, hf]

theorem hash_not_mem_hrefOf {u : JsUrl} (hu : GoodUrl u) (hf : u.fragment = none) :
    '#' ∉ hrefOf u := by
  intro hm
  simp only [hrefOf, originOf, hf, List.append_nil, List.mem_append] at hm
  rcases hm with ((((hm | hm) | hm) | hm) | hm) | hm
  · cases hsch : u.scheme <;> rw [hsch] at hm <;> simp [schemeStr, str] at hm
  · simp [str] at hm
  · exact absurd (hu.host_ok '#' hm) (by decide)
  · revert hm
    cases hport : u.port with
    | none => simp
    | some p =>
      intro hm
      rcases List.mem_cons.mp hm with he | hm2
      · exact absurd he (by decide)
      · exact absurd ((hu.port_ok p hport).2.1 '#' hm2) (by decide)
  · exact absurd (hu.path_ok '#' hm) (by decide)
  · revert hm
    cases hq : u.query with
    | none => simp
    | some q =>
      intro hm
      rcases List.mem_cons.mp hm with he | hm2
      · exact absurd he (by decide)
      · exact absurd (hu.query_ok q hq '#' hm2) (by decide)

theorem endsSlash_iff {l : Str} : endsSlash l = true ↔ l.getLast? = some '/' := by
  unfold endsSlash
  cases hg : l.getLast? with
  | none => simp
  | some c => simp [eq_comm]

theorem twoSlash_hrefOf (u : JsUrl) : twoSlash (hrefOf u) = false := by
  cases hs : u.scheme
  · rw [hrefOf_http hs]; rfl
  · rw [hrefOf_https hs]; rfl

/-- Running `normalizeUrl` on a serialized, hash-normal, well-formed URL:
parsing recovers the record, so only the trailing-slash step can act. -/
theorem normalizeUrl_hrefOf {u : JsUrl} (hu : GoodUrl u)
    (hnorm : stripSimpleHash u = u) (b : Str) :
    normalizeUrl (hrefOf u) b = some (stripSlash (hrefOf u) (originOf u)) := by
  have h1 : fixProtoRel (hrefOf u) b = some (hrefOf u) := by
    unfold fixProtoRel
    rw [twoSlash_hrefOf u]
    simp
  have h2 : resolveUrl (hrefOf u) b = some u := parse_hrefOf hu
  simp only [normalizeUrl, h1, h2, hnorm]

/-- When the trailing-slash step fires on the serialization of a
fragment-free well-formed URL (other than the bare origin root), the
stripped string is again the serialization of a fragment-free well-formed
URL: the same record with the final slash removed from its query or from
its path. -/
theorem stripped_href_shape {p : JsUrl} (hgp : GoodUrl p)
    (hfragp : p.fragment = none)
    (hEnds : endsSlash (hrefOf p) = true)
    (hNotRoot : hrefOf p ≠ originOf p ++ ['/']) :
    ∃ r2 : JsUrl, GoodUrl r2 ∧ r2.fragment = none ∧
      (hrefOf p).dropLast = hrefOf r2 ∧ originOf r2 = originOf p := by
  cases hq : p.query with
  | some q =>
    have hn_eq : hrefOf p = (originOf p ++ p.pathname) ++ '?' :: q := by
      simp [hrefOf, hq, hfragp]
    have hql : ('?' :: q).getLast? = some '/' := by
      have := endsSlash_iff.mp hEnds
      rw [hn_eq, List.getLast?_append_cons] at this
      exact this
    have hqne : q ≠ [] := by
      intro hqe
      subst hqe
      simp at hql
    have hqlast : endsSlash q = true := by
      rw [endsSlash_iff]
      cases hc : q with
      | nil => exact absurd hc hqne
      | cons y ys =>
        rw [hc] at hql
        rwa [List.getLast?_cons_cons] at hql
    refine ⟨{ p with query := some q.dropLast }, ?_, hfragp, ?_, ?_⟩
    · exact { host_ne := hgp.host_ne, host_ok := hgp.host_ok, port_ok := hgp.port_ok,
              path_slash := hgp.path_slash, path_ok := hgp.path_ok,
              query_ok := fun q2 hq2 c hc => by
                injection hq2 with hq2
                subst hq2
                exact hgp.query_ok q hq c (List.mem_of_mem_dropLast hc),
              frag_ok := fun f hf => by simp [hfragp] at hf }
    · rw [hn_eq, dropLast_append_ne (by simp), dropLast_cons_ne hqne]
      simp [hrefOf, hfragp, originOf, List.append_assoc]
    · simp [originOf]
  | none =>
    have hn_eq : hrefOf p = originOf p ++ p.pathname := by
      simp [hrefOf, hq, hfragp]
    obtain ⟨t, hpath⟩ := hgp.path_slash
    have hpne : p.pathname ≠ [] := by rw [hpath]; simp
    have hplast : endsSlash p.pathname = true := by
      rw [endsSlash_iff]
      have := endsSlash_iff.mp hEnds
      rwa [hn_eq, List.getLast?_append_of_ne_nil _ hpne] at this
    have htne : t ≠ [] := by
      intro hte
      apply hNotRoot
      rw [hn_eq, hpath, hte]
    refine ⟨{ p with pathname := p.pathname.dropLast }, ?_, hfragp, ?_, ?_⟩
    · exact { host_ne := hgp.host_ne, host_ok := hgp.host_ok, port_ok := hgp.port_ok,
              path_slash := ⟨t.dropLast, by rw [hpath, dropLast_cons_ne htne]⟩,
              path_ok := fun c hc => hgp.path_ok c (List.mem_of_mem_dropLast hc),
              query_ok := fun q2 hq2 => by simp [hq] at hq2,
              frag_ok := fun f hf => by simp [hfragp] at hf }
    · rw [hn_eq, dropLast_append_ne hpne]
      simp [hrefOf, hfragp, hq, originOf, List.append_assoc]
    · simp [originOf]

/-- C9: the claim that the canonical form never ends in "/" unless it
equals the bare origin root is false: a path ending in two slashes has only
one stripped, leaving a canonical form that still ends in "/" and is not
the origin root. -/
theorem C9_counterexample_trailing_slash_remains :
    normalizeUrl (str "https://example.com/a//") (str "https://example.com") =
      some (str "https://example.com/a/") ∧
    endsSlash (str "https://example.com/a/") = true ∧
    str "https://example.com/a/" ≠ str "https://example.com/" := by
  refine ⟨by decide, by decide, by decide⟩

/-- C9 (amended): a single trailing slash is stripped only when the
serialized form contains no "#" and is not the bare origin root; hence
whenever the canonical form ends in "/", either it contains a kept hash
fragment, or it is the bare origin root, or exactly one slash was stripped
from a pre-strip form ending in "//". -/
theorem C9_trailing_slash_characterization :
    ∀ u b v, normalizeUrl u b = some v → endsSlash v = true →
      ∃ u1 p0, fixProtoRel u b = some u1 ∧ resolveUrl u1 b = some p0 ∧
        (v.contains '#' = true ∨
         v = originOf (stripSimpleHash p0) ++ ['/'] ∨
         hrefOf (stripSimpleHash p0) = v ++ ['/']) := by
  intro u b v h hslash
  simp only [normalizeUrl] at h
  cases h1 : fixProtoRel u b with
  | none => rw [h1] at h; exact absurd h (by simp)
  | some u1 =>
    rw [h1] at h
    dsimp only at h
    cases h2 : resolveUrl u1 b with
    | none => rw [h2] at h; exact absurd h (by simp)
    | some p0 =>
      rw [h2] at h
      dsimp only at h
      injection h with h
      refine ⟨u1, p0, rfl, h2, ?_⟩
      by_cases hcond :
          (endsSlash (hrefOf (stripSimpleHash p0)) &&
            !((hrefOf (stripSimpleHash p0)).contains '#') &&
            !((hrefOf (stripSimpleHash p0)) == originOf (stripSimpleHash p0) ++ ['/'])) = true
      · simp only [stripSlash, if_pos hcond] at h
        refine Or.inr (Or.inr ?_)
        rw [← h]
        obtain ⟨⟨hEnds, _⟩, _⟩ := by
          rw [Bool.and_eq_true, Bool.and_eq_true] at hcond
          exact hcond
        exact endsSlash_decompose hEnds
      · simp only [stripSlash, if_neg hcond] at h
        rw [← h] at hslash
        by_cases hy : ((hrefOf (stripSimpleHash p0)).contains '#') = true
        · exact Or.inl (by rw [← h]; exact hy)
        · refine Or.inr (Or.inl ?_)
          have hy2 : ((hrefOf (stripSimpleHash p0)).contains '#') = false := by
            simpa using hy
          have hbeq : (hrefOf (stripSimpleHash p0) ==
              originOf (stripSimpleHash p0) ++ ['/']) = true := by
            by_contra hb
            have hb2 : (hrefOf (stripSimpleHash p0) ==
                originOf (stripSimpleHash p0) ++ ['/']) = false := by
              simpa using hb
            apply hcond
            rw [Bool.and_eq_true, Bool.and_eq_true]
            exact ⟨⟨hslash, by rw [hy2]; rfl⟩, by rw [hb2]; rfl⟩
          rw [← h]
          exact beq_iff_eq.mp hbeq

/-- C9 witness: the amended characterization applied to the bare origin
root, whose canonical form ends in "/". -/
theorem C9_trailing_slash_characterization_witness :
    ∃ u1 p0,
      fixProtoRel (str "https://example.com/") (str "https://example.com/") = some u1 ∧
      resolveUrl u1 (str "https://example.com/") = some p0 ∧
      ((str "https://example.com/").contains '#' = true ∨
       str "https://example.com/" = originOf (stripSimpleHash p0) ++ ['/'] ∨
       hrefOf (stripSimpleHash p0) = str "https://example.com/" ++ ['/']) :=
  C9_trailing_slash_characterization (str "https://example.com/")
    (str "https://example.com/") (str "https://example.com/") (by decide) (by decide)

/-- C8: normalization is not idempotent: a path ending in "//" loses one
slash per application, so the second application returns a different
string. -/
theorem C8_counterexample_double_slash :
    normalizeUrl (str "https://example.com/a//") (str "https://example.com") =
      some (str "https://example.com/a/") ∧
    normalizeUrl (str "https://example.com/a/") (str "https://example.com") =
      some (str "https://example.com/a") ∧
    str "https://example.com/a" ≠ str "https://example.com/a/" := by
  refine ⟨by decide, by decide, by decide⟩

/-- C8 (amended): normalizeUrl is idempotent on every canonical form that
does not end in "/", or contains a "#" (kept hash route), or equals the
bare origin root; the only failures are canonical forms still ending in a
slash that came from a run of trailing slashes. -/
theorem C8_idempotent_unless_trailing_slash :
    ∀ u b v, normalizeUrl u b = some v →
      (endsSlash v = false ∨ v.contains '#' = true ∨
        (∃ r, parseUrl v = some r ∧ v = originOf r ++ ['/'])) →
      normalizeUrl v b = some v := by
  intro u b v h hside
  simp only [normalizeUrl] at h
  cases h1 : fixProtoRel u b with
  | none => rw [h1] at h; exact absurd h (by simp)
  | some u1 =>
    rw [h1] at h
    dsimp only at h
    cases h2 : resolveUrl u1 b with
    | none => rw [h2] at h; exact absurd h (by simp)
    | some parsed0 =>
      rw [h2] at h
      dsimp only at h
      injection h with h
      have hgp : GoodUrl (stripSimpleHash parsed0) :=
        goodUrl_stripSimpleHash (parseUrl_good h2)
      have hpn : stripSimpleHash (stripSimpleHash parsed0) = stripSimpleHash parsed0 :=
        stripSimpleHash_idem parsed0
      by_cases hcond :
          (endsSlash (hrefOf (stripSimpleHash parsed0)) &&
            !((hrefOf (stripSimpleHash parsed0)).contains '#') &&
            !((hrefOf (stripSimpleHash parsed0)) ==
              originOf (stripSimpleHash parsed0) ++ ['/'])) = true
      · -- the first run stripped a slash
        simp only [stripSlash, if_pos hcond] at h
        obtain ⟨⟨hEnds, hNoHash⟩, hNotRoot⟩ := by
          rw [Bool.and_eq_true, Bool.and_eq_true] at hcond
          exact hcond
        have hNoHash2 : ((hrefOf (stripSimpleHash parsed0)).contains '#') = false := by
          simpa using hNoHash
        have hNotRoot2 : hrefOf (stripSimpleHash parsed0) ≠
            originOf (stripSimpleHash parsed0) ++ ['/'] := by
          simpa using hNotRoot
        have hfragp : (stripSimpleHash parsed0).fragment = none := by
          cases hf : (stripSimpleHash parsed0).fragment with
          | none => rfl
          | some f =>
            exfalso
            have hm := hash_mem_hrefOf hf
            rw [← contains_hash_iff] at hm
            rw [hm] at hNoHash2
            cases hNoHash2
        obtain ⟨r2, hg2, hfrag2, hdrop, horig⟩ :=
          stripped_href_shape hgp hfragp hEnds hNotRoot2
        have hv2 : v = hrefOf r2 := by rw [← h, hdrop]
        rw [hv2]
        rw [normalizeUrl_hrefOf hg2 (stripSimpleHash_of_none hfrag2) b]
        congr 1
        simp only [stripSlash]
        rcases hside with hside | hside | hside
        · rw [if_neg]
          intro hc
          rw [Bool.and_eq_true, Bool.and_eq_true] at hc
          have hc1 := hc.1.1
          rw [← hv2, hside] at hc1
          cases hc1
        · exfalso
          have hm : '#' ∈ v := contains_hash_iff.mp hside
          have hmn : '#' ∈ hrefOf (stripSimpleHash parsed0) := by
            rw [← h] at hm
            exact List.mem_of_mem_dropLast hm
          rw [← contains_hash_iff] at hmn
          rw [hmn] at hNoHash2
          cases hNoHash2
        · obtain ⟨r, hr1, hr2⟩ := hside
          have hrr : r = r2 := by
            have hpv := parse_hrefOf hg2
            rw [← hv2] at hpv
            rw [hr1] at hpv
            injection hpv
          subst hrr
          rw [if_neg]
          intro hc
          rw [Bool.and_eq_true, Bool.and_eq_true] at hc
          have hc2 := hc.2
          have hbeq : (hrefOf r == originOf r ++ ['/']) = true := by
            rw [← hv2]
            exact beq_iff_eq.mpr hr2
          rw [hbeq] at hc2
          cases hc2
      · -- no slash was stripped
        simp only [stripSlash, if_neg hcond] at h
        rw [← h]
        rw [normalizeUrl_hrefOf hgp hpn b]
        congr 1
        simp only [stripSlash, if_neg hcond]

/-- C8 witness: the amended idempotence applied to a concrete URL whose
canonical form does not end in "/". -/
theorem C8_idempotent_unless_trailing_slash_witness :
    normalizeUrl (str "https://example.com/a") (str "https://example.com") =
      some (str "https://example.com/a") :=
  C8_idempotent_unless_trailing_slash (str "https://example.com/a/")
    (str "https://example.com") (str "https://example.com/a")
    (by decide) (Or.inl (by decide))

/-- C4: for `http://example.com/a` against base origin
`https://example.com` the hostnames agree and neither URL has an explicit
port, yet `isInternalLink` returns `false`, because the scheme-implied
default ports 80 and 443 are compared; with matching schemes it returns
`true`.  This contradicts the function's own comment ("ignore protocol
differences - http vs https"). -/
theorem C4_scheme_mismatch_not_internal :
    isInternalLink (str "http://example.com/a") (str "https://example.com") = false ∧
    isInternalLink (str "https://example.com/a") (str "https://example.com") = true := by
  refine ⟨by decide, by decide⟩

/-- C2: the HTTP 429 path of `crawlPage` recurses with `retryCount + 1`
but never consults `MAX_RETRIES`, so a server that answers 429 on every
attempt makes the fetch run forever (no amount of fuel lets it return),
while a thrown navigation timeout is indeed retried at most `MAX_RETRIES`
times and then resolves to a broken result. -/
theorem C2_rate_limit_retry_unbounded :
    (∀ fuel attempt retryCount,
      crawlPageRun (fun _ => .rateLimited (some 1)) fuel attempt retryCount = none) ∧
    crawlPageRun (fun _ => .thrown (str "Navigation timeout of 15000 ms exceeded") false)
      (MAX_RETRIES + 2) 0 0 = some .broken := by
  constructor
  · intro fuel
    induction fuel with
    | zero => intro a rc; rfl
    | succ n ih =>
      intro a rc
      simp only [crawlPageRun, crawlPageStep]
      exact ih (a + 1) (rc + 1)
  · decide

/-! ### Invariants of the frontier scheduler -/

theorem contains_mem_iff {α : Type} [BEq α] [LawfulBEq α] {l : List α} {a : α} :
    l.contains a = true ↔ a ∈ l := by
  simp [List.contains, List.elem_iff]

theorem mapSet_not_mem {m : List (Str × PageRec)} {k : Str} {v : PageRec}
    (h : k ∉ m.map Prod.fst) : mapSet m k v = m ++ [(k, v)] := by
  unfold mapSet
  rw [if_neg]
  intro hc
  exact h (contains_mem_iff.mp hc)

theorem pushLinks_depth {env : CrawlEnv} {e : FrontierEntry} {id : Str}
    {info : PageInfo} {vis : List Str} :
    ∀ x ∈ pushLinks env e id info vis, x.depth = e.depth + 1 := by
  intro x hx
  unfold pushLinks at hx
  obtain ⟨l, _, rfl⟩ := List.mem_map.mp hx
  rfl

theorem pushLinks_not_visited {env : CrawlEnv} {e : FrontierEntry} {id : Str}
    {info : PageInfo} {vis : List Str} :
    ∀ x ∈ pushLinks env e id info vis, x.url ∉ vis := by
  intro x hx
  unfold pushLinks at hx
  obtain ⟨l, hl, rfl⟩ := List.mem_map.mp hx
  obtain ⟨_, hl2⟩ := List.mem_filter.mp hl
  rw [Bool.and_eq_true] at hl2
  intro hm
  have := hl2.2
  rw [contains_mem_iff.mpr hm] at this
  cases this

theorem markDuplicates_eq_map (dups : List Str) (m : List (Str × PageRec)) :
    markDuplicates dups m =
      m.map (fun kv =>
        if kv.1 ∈ dups then (kv.1, { kv.2 with status := .duplicate }) else kv) := by
  induction dups generalizing m with
  | nil =>
    simp only [markDuplicates, List.foldl_nil, List.not_mem_nil, if_false]
    simp
  | cons d ds ih =>
    have hstep : markDuplicates (d :: ds) m =
        markDuplicates ds
          (m.map (fun kv => if kv.1 == d then (kv.1, { kv.2 with status := .duplicate }) else kv)) := by
      simp [markDuplicates]
    rw [hstep, ih, List.map_map]
    congr 1
    funext kv
    by_cases h1 : kv.1 = d
    · by_cases h2 : kv.1 ∈ ds <;>
        simp [Function.comp, h1, h2, List.mem_cons]
    · by_cases h2 : kv.1 ∈ ds <;>
        simp [Function.comp, h1, h2, List.mem_cons]

def entryCount (u : Str) (l : List FrontierEntry) : Nat :=
  l.countP (fun e => e.url == u)

/-- The loop invariant of the frontier scheduler, for an arbitrary
observed URL `u`: page keys are exactly the visited list (in order),
nothing is visited or fetched twice, duplicates are recorded visits,
depths never exceed `maxDepth`, robots-denied URLs are never visited, and
the enqueue count of `u` is covered by its queue occurrences and its single
visit unless `u` has been recorded as a duplicate. -/
structure CrawlInv (env : CrawlEnv) (u : Str) (s : CrawlState) : Prop where
  keys_eq : s.pages.map Prod.fst = s.visited
  visited_nodup : s.visited.Nodup
  fetched_eq : s.fetched = s.visited
  dups_sub : ∀ x ∈ s.duplicates, x ∈ s.visited
  dups_nodup : s.duplicates.Nodup
  queue_depth : ∀ e ∈ s.queue, e.depth ≤ env.maxDepth
  pages_depth : ∀ kv ∈ s.pages, kv.2.depth ≤ env.maxDepth
  robots_visited : ∀ x ∈ s.visited, env.robotsAllowed x = true
  count_inv : env.robotsAllowed u = true →
    u ∈ s.duplicates ∨
      entryCount u s.enqLog ≤ entryCount u s.queue + (if u ∈ s.visited then 1 else 0)

theorem crawlInv_init (env : CrawlEnv) (u u0 : Str) : CrawlInv env u (initState u0) where
  keys_eq := rfl
  visited_nodup := List.nodup_nil
  fetched_eq := rfl
  dups_sub := by simp [initState]
  dups_nodup := List.nodup_nil
  queue_depth := by
    intro e he
    simp only [initState, List.mem_singleton] at he
    subst he
    exact Nat.zero_le _
  pages_depth := by simp [initState]
  robots_visited := by simp [initState]
  count_inv := fun _ => Or.inr (Nat.le_add_right _ _)

theorem crawlInv_step {env : CrawlEnv} {u : Str} {s : CrawlState}
    (hInv : CrawlInv env u s) : CrawlInv env u (crawlStep env s) := by
  cases hq : s.queue with
  | nil =>
    simp only [crawlStep, hq]
    exact hInv
  | cons e rest =>
    have hmem_e : e ∈ s.queue := by rw [hq]; exact List.mem_cons_self _ _
    have hrest_sub : ∀ x ∈ rest, x ∈ s.queue := by
      intro x hx; rw [hq]; exact List.mem_cons_of_mem _ hx
    by_cases hv : s.visited.contains e.url = true
    · by_cases hd : s.duplicates.contains e.url = true
      · have hstep : crawlStep env s = { s with queue := rest } := by
          simp [crawlStep, hq, contains_mem_iff.mp hv, contains_mem_iff.mp hd]
        rw [hstep]
        refine { keys_eq := hInv.keys_eq, visited_nodup := hInv.visited_nodup,
                 fetched_eq := hInv.fetched_eq, dups_sub := hInv.dups_sub,
                 dups_nodup := hInv.dups_nodup,
                 queue_depth := fun x hx => hInv.queue_depth x (hrest_sub x hx),
                 pages_depth := hInv.pages_depth,
                 robots_visited := hInv.robots_visited,
                 count_inv := ?_ }
        intro hru
        rcases hInv.count_inv hru with hl | hr
        · exact Or.inl hl
        · by_cases he : e.url = u
          · exact Or.inl (he ▸ contains_mem_iff.mp hd)
          · refine Or.inr ?_
            have hcq : entryCount u s.queue = entryCount u rest := by
              rw [hq]
              unfold entryCount
              rw [List.countP_cons]
              simp [he]
            rw [hcq] at hr
            exact hr
      · have hd2 : s.duplicates.contains e.url = false := by simpa using hd
        have hnd : e.url ∉ s.duplicates := fun hm => hd (contains_mem_iff.mpr hm)
        have hstep : crawlStep env s =
            { s with queue := rest, duplicates := s.duplicates ++ [e.url] } := by
          simp [crawlStep, hq, contains_mem_iff.mp hv, hnd]
        rw [hstep]
        refine { keys_eq := hInv.keys_eq, visited_nodup := hInv.visited_nodup,
                 fetched_eq := hInv.fetched_eq, dups_sub := ?_,
                 dups_nodup := ?_,
                 queue_depth := fun x hx => hInv.queue_depth x (hrest_sub x hx),
                 pages_depth := hInv.pages_depth,
                 robots_visited := hInv.robots_visited,
                 count_inv := ?_ }
        · intro x hx
          rcases List.mem_append.mp hx with hx | hx
          · exact hInv.dups_sub x hx
          · rw [List.mem_singleton] at hx
            subst hx
            exact contains_mem_iff.mp hv
        · rw [List.nodup_append]
          refine ⟨hInv.dups_nodup, List.nodup_singleton _, ?_⟩
          intro a ha hb
          rw [List.mem_singleton] at hb
          subst hb
          exact hd (contains_mem_iff.mpr ha)
        · intro hru
          rcases hInv.count_inv hru with hl | hr
          · exact Or.inl (List.mem_append.mpr (Or.inl hl))
          · by_cases he : e.url = u
            · exact Or.inl (List.mem_append.mpr (Or.inr (by simp [he])))
            · refine Or.inr ?_
              have hcq : entryCount u s.queue = entryCount u rest := by
                rw [hq]
                unfold entryCount
                rw [List.countP_cons]
                simp [he]
              rw [hcq] at hr
              exact hr
    · have hv2 : s.visited.contains e.url = false := by simpa using hv
      by_cases hdep : env.maxDepth < e.depth
      · exact absurd hdep (Nat.not_lt.mpr (hInv.queue_depth e hmem_e))
      · by_cases hrob : env.robotsAllowed e.url = true
        · -- the visit branch
          have hstep : crawlStep env s =
              { visited := s.visited ++ [e.url],
                queue := rest ++
                  (if e.depth < env.maxDepth then
                    pushLinks env e (str "node-" ++ natStr s.idCounter) (env.fetch e.url)
                      (s.visited ++ [e.url])
                  else []),
                pages := mapSet s.pages e.url
                  { url := (env.fetch e.url).url, title := (env.fetch e.url).title,
                    status := (env.fetch e.url).status, depth := e.depth,
                    links := (env.fetch e.url).links,
                    id := str "node-" ++ natStr s.idCounter, parentId := e.parentId },
                duplicates := s.duplicates,
                idCounter := s.idCounter + 1,
                fetched := s.fetched ++ [e.url],
                enqLog := s.enqLog ++
                  (if e.depth < env.maxDepth then
                    pushLinks env e (str "node-" ++ natStr s.idCounter) (env.fetch e.url)
                      (s.visited ++ [e.url])
                  else []) } := by
            have hnv : e.url ∉ s.visited := fun hm => hv (contains_mem_iff.mpr hm)
            simp [crawlStep, hq, hnv, hdep, hrob]
          rw [hstep]
          have hnm : e.url ∉ s.pages.map Prod.fst := by
            rw [hInv.keys_eq]
            exact fun hm => hv (contains_mem_iff.mpr hm)
          have hnm2 : e.url ∉ s.visited := fun hm => hv (contains_mem_iff.mpr hm)
          refine { keys_eq := ?_, visited_nodup := ?_, fetched_eq := ?_,
                   dups_sub := ?_, dups_nodup := hInv.dups_nodup,
                   queue_depth := ?_, pages_depth := ?_,
                   robots_visited := ?_, count_inv := ?_ }
          · rw [mapSet_not_mem hnm, List.map_append, hInv.keys_eq]
            rfl
          · rw [List.nodup_append]
            refine ⟨hInv.visited_nodup, List.nodup_singleton _, ?_⟩
            intro a ha hb
            rw [List.mem_singleton] at hb
            subst hb
            exact hnm2 ha
          · rw [hInv.fetched_eq]
          · intro x hx
            exact List.mem_append.mpr (Or.inl (hInv.dups_sub x hx))
          · intro x hx
            rcases List.mem_append.mp hx with hx | hx
            · exact hInv.queue_depth x (hrest_sub x hx)
            · by_cases hlt : e.depth < env.maxDepth
              · rw [if_pos hlt] at hx
                rw [pushLinks_depth x hx]
                omega
              · rw [if_neg hlt] at hx
                cases hx
          · intro kv hkv
            rw [mapSet_not_mem hnm] at hkv
            rcases List.mem_append.mp hkv with hkv | hkv
            · exact hInv.pages_depth kv hkv
            · rw [List.mem_singleton] at hkv
              subst hkv
              exact Nat.not_lt.mp hdep
          · intro x hx
            rcases List.mem_append.mp hx with hx | hx
            · exact hInv.robots_visited x hx
            · rw [List.mem_singleton] at hx
              subst hx
              exact hrob
          · intro hru
            rcases hInv.count_inv hru with hl | hr
            · exact Or.inl hl
            · refine Or.inr ?_
              unfold entryCount at hr ⊢
              rw [List.countP_append, List.countP_append]
              by_cases he : e.url = u
              · have hind_old : (if u ∈ s.visited then 1 else 0) = 0 := by
                  rw [if_neg]
                  intro hm
                  exact hnm2 (he ▸ hm)
                have hind_new : (if u ∈ s.visited ++ [e.url] then 1 else 0) = 1 := by
                  rw [if_pos]
                  exact List.mem_append.mpr (Or.inr (by simp [he]))
                have hnl0 : (if e.depth < env.maxDepth then
                    pushLinks env e (str "node-" ++ natStr s.idCounter) (env.fetch e.url)
                      (s.visited ++ [e.url]) else []).countP (fun x => x.url == u) = 0 := by
                  by_cases hlt : e.depth < env.maxDepth
                  · rw [if_pos hlt]
                    rw [List.countP_eq_zero]
                    intro x hx
                    have hxv := pushLinks_not_visited x hx
                    simp only [beq_iff_eq]
                    intro hxu
                    exact hxv (List.mem_append.mpr (Or.inr (by simp [hxu, he])))
                  · rw [if_neg hlt]
                    rfl
                rw [hq] at hr
                rw [List.countP_cons] at hr
                simp only [he, beq_self_eq_true, if_true] at hr
                rw [hind_old] at hr
                rw [hind_new, hnl0]
                omega
              · have hind_eq : (if u ∈ s.visited ++ [e.url] then 1 else 0) =
                    (if u ∈ s.visited then 1 else 0) := by
                  by_cases hm : u ∈ s.visited
                  · rw [if_pos hm, if_pos (List.mem_append.mpr (Or.inl hm))]
                  · rw [if_neg hm, if_neg]
                    intro hc
                    rcases List.mem_append.mp hc with hc | hc
                    · exact hm hc
                    · rw [List.mem_singleton] at hc
                      exact he hc.symm
                have hcq : (s.queue.countP (fun x => x.url == u)) =
                    rest.countP (fun x => x.url == u) := by
                  rw [hq, List.countP_cons]
                  simp [he]
                rw [hcq] at hr
                rw [hind_eq]
                omega
        · -- robots drop
          have hrob2 : env.robotsAllowed e.url = false := by
            simpa using hrob
          have hstep : crawlStep env s = { s with queue := rest } := by
            have hnv : e.url ∉ s.visited := fun hm => hv (contains_mem_iff.mpr hm)
            simp [crawlStep, hq, hnv, hdep, hrob2]
          rw [hstep]
          refine { keys_eq := hInv.keys_eq, visited_nodup := hInv.visited_nodup,
                   fetched_eq := hInv.fetched_eq, dups_sub := hInv.dups_sub,
                   dups_nodup := hInv.dups_nodup,
                   queue_depth := fun x hx => hInv.queue_depth x (hrest_sub x hx),
                   pages_depth := hInv.pages_depth,
                   robots_visited := hInv.robots_visited,
                   count_inv := ?_ }
          intro hru
          rcases hInv.count_inv hru with hl | hr
          · exact Or.inl hl
          · by_cases he : e.url = u
            · rw [he, hru] at hrob2
              cases hrob2
            · refine Or.inr ?_
              have hcq : entryCount u s.queue = entryCount u rest := by
                rw [hq]
                unfold entryCount
                rw [List.countP_cons]
                simp [he]
              rw [hcq] at hr
              exact hr

theorem crawlInv_loop {env : CrawlEnv} {u : Str} {s : CrawlState}
    (hInv : CrawlInv env u s) (n : Nat) : CrawlInv env u (crawlLoop n env s) := by
  induction n generalizing s with
  | zero => exact hInv
  | succ m ih =>
    simp only [crawlLoop]
    by_cases hdone : crawlDone s = true
    · rw [if_pos hdone]
      exact hInv
    · rw [if_neg hdone]
      exact ih (crawlInv_step hInv)

/-! ### Sorting and the flat sitemap -/

/-- Semantic description of `buildFlatSitemap` when some `ok` record's url
equals the root URL: the result is that record's node with `children`
present, every child is childless, and the children's URLs are exactly the
URLs of the other `ok` records.  (The order of the children is the sort's
output and is not characterized here: the code sorts with the
locale-dependent `localeCompare`, so only the permutation property — true
of any comparator — is asserted.) -/
theorem buildFlatSitemap_spec_found (pages : List (Str × PageRec)) (rootUrl : Str)
    {rp : PageRec}
    (hfind : (((pages.map Prod.snd).filter (fun p => p.status == .ok)).find?
        (fun p => p.url == rootUrl)) = some rp) :
    ∃ kids,
      buildFlatSitemap pages rootUrl =
        SitemapNode.mk rp.id rp.url (if rp.title = [] then rp.url else rp.title) 0 rp.status
          (some kids) ∧
      (∀ c ∈ kids, nodeChildren c = none) ∧
      (kids.map nodeUrl).Perm
        ((((pages.map Prod.snd).filter (fun p => p.status == .ok)).filter
            (fun p => !(p.url == rootUrl))).map (fun p => p.url)) := by
  have hmem : rp ∈ (pages.map Prod.snd).filter (fun p => p.status == .ok) :=
    List.mem_of_find?_eq_some hfind
  cases hpa : (pages.map Prod.snd).filter (fun p => p.status == .ok) with
  | nil => rw [hpa] at hmem; cases hmem
  | cons p0 prest =>
    refine ⟨(((p0 :: prest).filter (fun p => !(p.url == rootUrl))).map
        (fun p => SitemapNode.mk p.id p.url (if p.title = [] then p.url else p.title) 1
          p.status none)).insertionSort nodeLe, ?_, ?_, ?_⟩
    · simp only [buildFlatSitemap, hpa]
      rw [hpa] at hfind
      rw [hfind]
      rfl
    · intro c hc
      have hc2 := (List.perm_insertionSort nodeLe _).mem_iff.mp hc
      obtain ⟨p, _, rfl⟩ := List.mem_map.mp hc2
      rfl
    · refine ((List.perm_insertionSort nodeLe _).map nodeUrl).trans ?_
      rw [List.map_map]
      apply List.Perm.of_eq
      apply List.map_congr_left
      intro p _
      rfl

/-- Semantic description of `buildFlatSitemap` when NO `ok` record's url
equals the root URL (e.g. the seed redirected, so every record stores a
different final url, or the seed's record is not ok) but ok records exist:
the builder falls back to the first `ok` record as root, yet the children
loop still skips only records whose url equals `rootUrl` — so the fallback
root also appears among its own children. -/
theorem buildFlatSitemap_fallback (pages : List (Str × PageRec)) (rootUrl : Str)
    {p0 : PageRec} {prest : List PageRec}
    (hfind : (((pages.map Prod.snd).filter (fun p => p.status == .ok)).find?
        (fun p => p.url == rootUrl)) = none)
    (hpa : (pages.map Prod.snd).filter (fun p => p.status == .ok) = p0 :: prest) :
    ∃ kids,
      buildFlatSitemap pages rootUrl =
        SitemapNode.mk p0.id p0.url (if p0.title = [] then p0.url else p0.title) 0 p0.status
          (some kids) ∧
      (∀ c ∈ kids, nodeChildren c = none) ∧
      p0.url ∈ kids.map nodeUrl := by
  have hnot : ¬ (p0.url == rootUrl) = true := by
    have hall := List.find?_eq_none.mp hfind p0
    rw [hpa] at hall
    exact hall (List.mem_cons_self _ _)
  have hbf : (p0.url == rootUrl) = false := Bool.eq_false_iff.mpr hnot
  refine ⟨(((p0 :: prest).filter (fun p => !(p.url == rootUrl))).map
      (fun p => SitemapNode.mk p.id p.url (if p.title = [] then p.url else p.title) 1
        p.status none)).insertionSort nodeLe, ?_, ?_, ?_⟩
  · simp only [buildFlatSitemap, hpa]
    rw [hpa] at hfind
    rw [hfind]
    rfl
  · intro c hc
    have hc2 := (List.perm_insertionSort nodeLe _).mem_iff.mp hc
    obtain ⟨p, _, rfl⟩ := List.mem_map.mp hc2
    rfl
  · have hp0mem : p0 ∈ (p0 :: prest).filter (fun p => !(p.url == rootUrl)) := by
      apply List.mem_filter.mpr
      exact ⟨List.mem_cons_self _ _, by rw [hbf]; rfl⟩
    have hnode : SitemapNode.mk p0.id p0.url (if p0.title = [] then p0.url else p0.title) 1
        p0.status none ∈
        ((p0 :: prest).filter (fun p => !(p.url == rootUrl))).map
          (fun p => SitemapNode.mk p.id p.url (if p.title = [] then p.url else p.title) 1
            p.status none) :=
      List.mem_map_of_mem _ hp0mem
    have hsorted := (List.perm_insertionSort nodeLe _).mem_iff.mpr hnode
    exact List.mem_map.mpr ⟨_, hsorted, rfl⟩

/-- The sitemap a finished crawl returns in the SPA case is the flat one. -/
theorem finishCrawl_sitemap_spa {u0 : Str} {s : CrawlState}
    (hspa : isSPAOf (prepPages u0 s) = true) :
    (finishCrawl u0 s).sitemap = buildFlatSitemap (prepPages u0 s) u0 := by
  simp [finishCrawl, hspa]

/-! ### Claim theorems about the scheduler and its results -/

def countStatus (st : PStatus) (ps : List PageRec) : Nat :=
  (ps.filter (fun p => p.status == st)).length

theorem length_eq_countStatus (ps : List PageRec) :
    ps.length = countStatus .ok ps + countStatus .duplicate ps + countStatus .broken ps := by
  induction ps with
  | nil => rfl
  | cons p rest ih =>
    unfold countStatus at ih ⊢
    cases hst : p.status <;> simp [List.filter_cons, hst, ih] <;> omega

/-- A crawl whose seed answers HTTP 404: one broken record is created. -/
def envBroken : CrawlEnv :=
  { fetch := fun u => { url := u, title := str "Error 404", status := .broken, links := [] },
    robotsAllowed := fun _ => true,
    internal := fun _ => false,
    maxDepth := 3 }

/-- C1: the claim fails on the code.  A completed crawl of a seed that
returns 404 produces one PageRecord with status broken; `pagesFound` is 1
(the total record count) while the count of ok-or-duplicate records is 0. -/
theorem C1_counterexample_broken_page_counted :
    crawlDone (crawlLoop 2 envBroken (initState (str "https://s.a"))) = true ∧
    (finishCrawl (str "https://s.a")
        (crawlLoop 2 envBroken (initState (str "https://s.a")))).pagesFound = 1 ∧
    countStatus .ok
        ((prepPages (str "https://s.a")
            (crawlLoop 2 envBroken (initState (str "https://s.a")))).map Prod.snd) +
      countStatus .duplicate
        ((prepPages (str "https://s.a")
            (crawlLoop 2 envBroken (initState (str "https://s.a")))).map Prod.snd) = 0 := by
  refine ⟨by decide, by decide, by decide⟩

/-- C1 (amended): for every completed crawl, `pagesFound` equals the total
number of PageRecords — the ok, duplicate and broken counts together, not
just ok and duplicate. -/
theorem C1_pagesFound_total_records (env : CrawlEnv) (u0 : Str) (fuel : Nat)
    (hdone : crawlDone (crawlLoop fuel env (initState u0)) = true) :
    (finishCrawl u0 (crawlLoop fuel env (initState u0))).pagesFound =
      countStatus .ok ((prepPages u0 (crawlLoop fuel env (initState u0))).map Prod.snd) +
      countStatus .duplicate ((prepPages u0 (crawlLoop fuel env (initState u0))).map Prod.snd) +
      countStatus .broken ((prepPages u0 (crawlLoop fuel env (initState u0))).map Prod.snd) := by
  have hpf : (finishCrawl u0 (crawlLoop fuel env (initState u0))).pagesFound =
      ((prepPages u0 (crawlLoop fuel env (initState u0))).map Prod.snd).length := by
    simp [finishCrawl]
  rw [hpf, length_eq_countStatus]

/-- C1 witness: the amended count identity at the concrete 404 crawl. -/
theorem C1_pagesFound_total_records_witness :
    (finishCrawl (str "https://s.a")
        (crawlLoop 2 envBroken (initState (str "https://s.a")))).pagesFound =
      countStatus .ok
          ((prepPages (str "https://s.a")
              (crawlLoop 2 envBroken (initState (str "https://s.a")))).map Prod.snd) +
      countStatus .duplicate
          ((prepPages (str "https://s.a")
              (crawlLoop 2 envBroken (initState (str "https://s.a")))).map Prod.snd) +
      countStatus .broken
          ((prepPages (str "https://s.a")
              (crawlLoop 2 envBroken (initState (str "https://s.a")))).map Prod.snd) :=
  C1_pagesFound_total_records envBroken (str "https://s.a") 2 (by decide)

/-- C5: the claim fails on the code.  In the completed 404 crawl no record
has status ok, yet `xmlContent` is the urlset wrapper with zero `<url>`
entries — no single-entry fallback document is produced, because the
fallback fires only on an empty string and `generateXml` never returns
one. -/
theorem C5_counterexample_no_url_entries :
    crawlDone (crawlLoop 2 envBroken (initState (str "https://s.a"))) = true ∧
    (finishCrawl (str "https://s.a")
        (crawlLoop 2 envBroken (initState (str "https://s.a")))).xmlContent =
      xmlHeader ++ xmlFooter ∧
    containsSeq (str "<loc>")
      ((finishCrawl (str "https://s.a")
          (crawlLoop 2 envBroken (initState (str "https://s.a")))).xmlContent) = false := by
  refine ⟨by decide, by decide, by decide⟩

/-- C5 (amended): `generateXml` never returns the empty string (it always
contains the urlset wrapper), so the single-entry fallback of lines
1439-1449 can never fire; when no PageRecord has status ok, a completed
crawl's `xmlContent` is the urlset document with zero url entries. -/
theorem C5_xml_wrapper_never_empty :
    (∀ pages, generateXml pages ≠ []) ∧
    (∀ (env : CrawlEnv) (u0 : Str) (fuel : Nat),
      crawlDone (crawlLoop fuel env (initState u0)) = true →
      ((prepPages u0 (crawlLoop fuel env (initState u0))).map Prod.snd).filter
          (fun p => p.status == .ok) = [] →
      (finishCrawl u0 (crawlLoop fuel env (initState u0))).xmlContent =
        xmlHeader ++ xmlFooter) := by
  have hhead : xmlHeader ≠ [] := by decide
  constructor
  · intro pages h
    unfold generateXml at h
    rcases List.append_eq_nil.mp h with ⟨h1, _⟩
    rcases List.append_eq_nil.mp h1 with ⟨h2, _⟩
    exact hhead h2
  · intro env u0 fuel hdone hok
    have hxml : generateXml (prepPages u0 (crawlLoop fuel env (initState u0))) =
        xmlHeader ++ xmlFooter := by
      unfold generateXml
      rw [hok]
      simp [List.intercalate]
    simp only [finishCrawl, hxml]
    rw [if_neg]
    intro hc
    have := List.isEmpty_iff.mp hc
    rcases List.append_eq_nil.mp this with ⟨h2, _⟩
    exact hhead h2

/-- C5 witness: both amended statements at concrete inputs — the empty
page map, and the completed 404 crawl where no record is ok. -/
theorem C5_xml_wrapper_never_empty_witness :
    generateXml [] ≠ [] ∧
    (finishCrawl (str "https://s.a")
        (crawlLoop 2 envBroken (initState (str "https://s.a")))).xmlContent =
      xmlHeader ++ xmlFooter :=
  ⟨C5_xml_wrapper_never_empty.1 [],
   C5_xml_wrapper_never_empty.2 envBroken (str "https://s.a") 2 (by decide) (by decide)⟩

/-- C7: depths are bounded throughout every crawl — every queue entry and
every PageRecord at every reachable state stays at most `maxDepth` (also
after the post-loop record fixups), and a dequeued entry whose depth
exceeds `maxDepth` is dropped without a fetch and without creating a
record. -/
theorem C7_depth_bounded (env : CrawlEnv) (u0 : Str) (fuel : Nat) :
    (∀ n, ∀ e ∈ (crawlLoop n env (initState u0)).queue, e.depth ≤ env.maxDepth) ∧
    (∀ n, ∀ kv ∈ (crawlLoop n env (initState u0)).pages, kv.2.depth ≤ env.maxDepth) ∧
    (∀ kv ∈ prepPages u0 (crawlLoop fuel env (initState u0)), kv.2.depth ≤ env.maxDepth) ∧
    (∀ (s : CrawlState) (e : FrontierEntry) (rest : List FrontierEntry),
      s.queue = e :: rest → env.maxDepth < e.depth →
      (crawlStep env s).pages = s.pages ∧ (crawlStep env s).fetched = s.fetched) := by
  refine ⟨?_, ?_, ?_, ?_⟩
  · intro n
    exact (crawlInv_loop (crawlInv_init env [] u0) n).queue_depth
  · intro n
    exact (crawlInv_loop (crawlInv_init env [] u0) n).pages_depth
  · intro kv hkv
    unfold prepPages at hkv
    rw [markDuplicates_eq_map] at hkv
    obtain ⟨kv0, hkv0, hkveq⟩ := List.mem_map.mp hkv
    have hdep0 : kv0.2.depth ≤ env.maxDepth := by
      by_cases hemp : (crawlLoop fuel env (initState u0)).pages.isEmpty = true
      · rw [if_pos hemp] at hkv0
        rw [List.mem_singleton] at hkv0
        subst hkv0
        exact Nat.zero_le _
      · rw [if_neg hemp] at hkv0
        exact (crawlInv_loop (crawlInv_init env [] u0) fuel).pages_depth kv0 hkv0
    by_cases hdup : kv0.1 ∈ (crawlLoop fuel env (initState u0)).duplicates
    · rw [if_pos hdup] at hkveq
      rw [← hkveq]
      exact hdep0
    · rw [if_neg hdup] at hkveq
      rw [← hkveq]
      exact hdep0
  · intro s e rest hq hdep
    by_cases hv : s.visited.contains e.url = true
    · by_cases hd : s.duplicates.contains e.url = true
      · constructor <;>
          simp [crawlStep, hq, contains_mem_iff.mp hv, contains_mem_iff.mp hd]
      · have hnd : e.url ∉ s.duplicates := fun hm => hd (contains_mem_iff.mpr hm)
        constructor <;>
          simp [crawlStep, hq, contains_mem_iff.mp hv, hnd]
    · have hnv : e.url ∉ s.visited := fun hm => hv (contains_mem_iff.mpr hm)
      constructor <;>
        simp [crawlStep, hq, hnv, hdep]

/-- A frontier state holding a single over-depth entry, used to exercise
the drop-without-fetch clause. -/
def overDepthState : CrawlState :=
  { visited := [], queue := [{ url := str "https://s.a/deep", depth := 9, parentId := none }],
    pages := [], duplicates := [], idCounter := 0, fetched := [],
    enqLog := [{ url := str "https://s.a/deep", depth := 9, parentId := none }] }

/-- C7 witness: the drop clause applied at a concrete over-depth entry. -/
theorem C7_depth_bounded_witness :
    (crawlStep envBroken overDepthState).pages = overDepthState.pages ∧
    (crawlStep envBroken overDepthState).fetched = overDepthState.fetched :=
  (C7_depth_bounded envBroken (str "https://s.a") 2).2.2.2 overDepthState
    { url := str "https://s.a/deep", depth := 9, parentId := none } [] rfl (by decide)

/-- C10: if the loop finishes with zero PageRecords, a root record with
status ok and title "Home" is synthesized, and the returned counters are
those of a successful one-page crawl: `pagesFound = 1`, `brokenLinks = 0`,
`duplicatePages = 0`. -/
theorem C10_empty_crawl_synthesizes_home (env : CrawlEnv) (u0 : Str) (fuel : Nat)
    (hdone : crawlDone (crawlLoop fuel env (initState u0)) = true)
    (hempty : (crawlLoop fuel env (initState u0)).pages = []) :
    prepPages u0 (crawlLoop fuel env (initState u0)) =
      [(u0, { url := u0, title := str "Home", status := .ok, depth := 0,
              links := [], id := str "node-0", parentId := none })] ∧
    (finishCrawl u0 (crawlLoop fuel env (initState u0))).pagesFound = 1 ∧
    (finishCrawl u0 (crawlLoop fuel env (initState u0))).brokenLinks = 0 ∧
    (finishCrawl u0 (crawlLoop fuel env (initState u0))).duplicatePages = 0 := by
  have hInv := crawlInv_loop (crawlInv_init env [] u0) fuel
  have hvis : (crawlLoop fuel env (initState u0)).visited = [] := by
    rw [← hInv.keys_eq, hempty]
    rfl
  have hdups : (crawlLoop fuel env (initState u0)).duplicates = [] := by
    rw [List.eq_nil_iff_forall_not_mem]
    intro x hx
    have hxv := hInv.dups_sub x hx
    rw [hvis] at hxv
    cases hxv
  have hprep : prepPages u0 (crawlLoop fuel env (initState u0)) =
      [(u0, { url := u0, title := str "Home", status := .ok, depth := 0,
              links := [], id := str "node-0", parentId := none })] := by
    simp [prepPages, hempty, hdups, markDuplicates]
  refine ⟨hprep, ?_, ?_, ?_⟩
  · simp [finishCrawl, hprep]
  · simp [finishCrawl, hprep]
  · simp [finishCrawl, hdups]

/-- A crawl whose robots policy denies every URL: nothing is fetched. -/
def envDenyAll : CrawlEnv :=
  { fetch := fun u => { url := u, title := str "T", status := .ok, links := [] },
    robotsAllowed := fun _ => false,
    internal := fun _ => false,
    maxDepth := 3 }

/-- C10 witness: the robots policy denies the seed, the loop records
nothing, and the result reports one ok "Home" page. -/
theorem C10_empty_crawl_synthesizes_home_witness :
    prepPages (str "https://s.a") (crawlLoop 2 envDenyAll (initState (str "https://s.a"))) =
      [(str "https://s.a",
        { url := str "https://s.a", title := str "Home", status := .ok, depth := 0,
          links := [], id := str "node-0", parentId := none })] ∧
    (finishCrawl (str "https://s.a")
        (crawlLoop 2 envDenyAll (initState (str "https://s.a")))).pagesFound = 1 ∧
    (finishCrawl (str "https://s.a")
        (crawlLoop 2 envDenyAll (initState (str "https://s.a")))).brokenLinks = 0 ∧
    (finishCrawl (str "https://s.a")
        (crawlLoop 2 envDenyAll (initState (str "https://s.a")))).duplicatePages = 0 :=
  C10_empty_crawl_synthesizes_home envDenyAll (str "https://s.a") 2 (by decide) (by decide)

theorem count_eq_one_of_mem_str {l : List Str} {a : Str} (hn : l.Nodup) (hm : a ∈ l) :
    l.count a = 1 := by
  induction l with
  | nil => cases hm
  | cons x xs ih =>
    rcases List.nodup_cons.mp hn with ⟨hx, hxs⟩
    rcases List.mem_cons.mp hm with he | hm2
    · subst he
      rw [List.count_cons_self, List.count_eq_zero.mpr hx]
    · have hax : a ≠ x := fun he2 => hx (he2 ▸ hm2)
      rw [List.count_cons_of_ne hax, ih hxs hm2]

/-- A crawl whose seed lists 98 distinct internal links followed by the
same internal link twice: the 100-page cap stops the loop with the second
entry for that link still queued. -/
def capLinks : List Str :=
  (List.range 98).map (fun i => str "https://s.a/c" ++ natStr i) ++
    [str "https://s.a/b", str "https://s.a/b"]

def envCap : CrawlEnv :=
  { fetch := fun u =>
      if u == str "https://s.a" then
        { url := u, title := str "A", status := .ok, links := capLinks }
      else { url := u, title := str "P", status := .ok, links := [] },
    robotsAllowed := fun _ => true,
    internal := fun _ => true,
    maxDepth := 3 }

set_option maxRecDepth 100000 in
/-- C6: the claim fails on the code when the 100-page cap (line 1295)
stops the loop.  In this completed crawl the URL `/b` was enqueued twice
and visited once, yet the loop exits at 100 pages with the second `/b`
entry still queued, so the duplicate counter is never incremented and the
record keeps status ok instead of being flipped to duplicate. -/
theorem C6_counterexample_cap_stops_duplicate :
    crawlDone (crawlLoop 101 envCap (initState (str "https://s.a"))) = true ∧
    2 ≤ entryCount (str "https://s.a/b")
        (crawlLoop 101 envCap (initState (str "https://s.a"))).enqLog ∧
    str "https://s.a/b" ∈ (crawlLoop 101 envCap (initState (str "https://s.a"))).visited ∧
    (crawlLoop 101 envCap (initState (str "https://s.a"))).duplicates = [] ∧
    ∀ kv ∈ prepPages (str "https://s.a") (crawlLoop 101 envCap (initState (str "https://s.a"))),
      kv.1 = str "https://s.a/b" → kv.2.status = .ok := by
  decide

/-- C6 (amended): a URL enqueued at least twice that gets visited receives
exactly one PageRecord key and exactly one fetch, unconditionally; the
duplicate-set entry and the status flip to duplicate additionally require
that the crawl drain its frontier — when the 100-page cap stops the loop
with the second entry still queued, neither happens. -/
theorem C6_duplicate_enqueue_single_fetch (env : CrawlEnv) (u0 u : Str) (fuel : Nat)
    (hvis : u ∈ (crawlLoop fuel env (initState u0)).visited) :
    ((crawlLoop fuel env (initState u0)).pages.map Prod.fst).count u = 1 ∧
    (crawlLoop fuel env (initState u0)).fetched.count u = 1 ∧
    ((crawlLoop fuel env (initState u0)).queue = [] →
      2 ≤ entryCount u (crawlLoop fuel env (initState u0)).enqLog →
      u ∈ (crawlLoop fuel env (initState u0)).duplicates ∧
      ∃ kv ∈ prepPages u0 (crawlLoop fuel env (initState u0)),
        kv.1 = u ∧ kv.2.status = .duplicate) := by
  have hInv := crawlInv_loop (crawlInv_init env u u0) fuel
  refine ⟨?_, ?_, ?_⟩
  · rw [hInv.keys_eq]
    exact count_eq_one_of_mem_str hInv.visited_nodup hvis
  · rw [hInv.fetched_eq]
    exact count_eq_one_of_mem_str hInv.visited_nodup hvis
  · intro hq henq
    have hrobu : env.robotsAllowed u = true := hInv.robots_visited u hvis
    have hdupu : u ∈ (crawlLoop fuel env (initState u0)).duplicates := by
      rcases hInv.count_inv hrobu with hl | hr
      · exact hl
      · exfalso
        rw [hq] at hr
        rw [if_pos hvis] at hr
        unfold entryCount at hr henq
        simp only [List.countP_nil] at hr
        omega
    refine ⟨hdupu, ?_⟩
    have hne : (crawlLoop fuel env (initState u0)).pages ≠ [] := by
      intro hnil
      rw [← hInv.keys_eq, hnil] at hvis
      cases hvis
    have hmemk : u ∈ (crawlLoop fuel env (initState u0)).pages.map Prod.fst := by
      rw [hInv.keys_eq]
      exact hvis
    obtain ⟨kv0, hkv0, hkv0u⟩ := List.mem_map.mp hmemk
    unfold prepPages
    rw [if_neg (fun hc => hne (List.isEmpty_iff.mp hc))]
    rw [markDuplicates_eq_map]
    refine ⟨(kv0.1, { kv0.2 with status := .duplicate }), ?_, ?_, rfl⟩
    · apply List.mem_map.mpr
      exact ⟨kv0, hkv0, by rw [if_pos (by rw [hkv0u]; exact hdupu)]⟩
    · exact hkv0u

/-- A crawl whose seed page lists the same internal link twice, so that the
link is enqueued twice before its first visit completes. -/
def envDupLink : CrawlEnv :=
  { fetch := fun u =>
      if u == str "https://s.a" then
        { url := u, title := str "A", status := .ok,
          links := [str "https://s.a/b", str "https://s.a/b"] }
      else { url := u, title := str "B", status := .ok, links := [] },
    robotsAllowed := fun _ => true,
    internal := fun l => l == str "https://s.a/b",
    maxDepth := 3 }

/-- C6 witness: the amended guarantee at the concrete crawl whose seed
links to the same URL twice and then drains its frontier. -/
theorem C6_duplicate_enqueue_single_fetch_witness :
    ((crawlLoop 4 envDupLink (initState (str "https://s.a"))).pages.map Prod.fst).count
        (str "https://s.a/b") = 1 ∧
    (crawlLoop 4 envDupLink (initState (str "https://s.a"))).fetched.count
        (str "https://s.a/b") = 1 ∧
    str "https://s.a/b" ∈ (crawlLoop 4 envDupLink (initState (str "https://s.a"))).duplicates ∧
    ∃ kv ∈ prepPages (str "https://s.a") (crawlLoop 4 envDupLink (initState (str "https://s.a"))),
      kv.1 = str "https://s.a/b" ∧ kv.2.status = .duplicate := by
  have h := C6_duplicate_enqueue_single_fetch envDupLink (str "https://s.a")
    (str "https://s.a/b") 4 (by decide)
  exact ⟨h.1, h.2.1, (h.2.2 (by decide) (by decide)).1, (h.2.2 (by decide) (by decide)).2⟩

/-- A crawl of a site that exposes a hash-route link: the seed is ok and
also links to an internal page that turns out broken. -/
def envSpaBroken : CrawlEnv :=
  { fetch := fun u =>
      if u == str "https://s.a" then
        { url := u, title := str "A", status := .ok,
          links := [str "https://s.a/b", str "https://s.a/#/r"] }
      else { url := u, title := str "B", status := .broken, links := [] },
    robotsAllowed := fun _ => true,
    internal := fun l => l == str "https://s.a/b",
    maxDepth := 3 }

/-- C3: the claim fails on the code.  A discovered link contains "#/", so
the flat SPA sitemap is built — but the flat builder keeps only records
with status ok: the crawl visited two pages, yet the root node has zero
children, because the second visited page is broken and is dropped rather
than listed as a direct child. -/
theorem C3_counterexample_broken_not_child :
    isSPAOf (prepPages (str "https://s.a")
        (crawlLoop 4 envSpaBroken (initState (str "https://s.a")))) = true ∧
    (crawlLoop 4 envSpaBroken (initState (str "https://s.a"))).visited =
      [str "https://s.a", str "https://s.a/b"] ∧
    nodeUrl (finishCrawl (str "https://s.a")
        (crawlLoop 4 envSpaBroken (initState (str "https://s.a")))).sitemap =
      str "https://s.a" ∧
    (nodeChildren (finishCrawl (str "https://s.a")
        (crawlLoop 4 envSpaBroken (initState (str "https://s.a")))).sitemap).map
        List.length = some 0 := by
  refine ⟨by decide, by decide, by decide, by decide⟩

/-- C3 (amended): when the SPA condition holds on a completed crawl, the
final sitemap is flat, in one of two regimes.  If some ok record's url
equals the normalized start URL, that record becomes the root node, every
child node is childless, and the children's URLs are a permutation of
the urls of the OTHER ok records (broken and duplicate records are
omitted; the child order is the locale-dependent `localeCompare` sort and
is not characterized).  If no ok record's url equals the start URL (e.g.
the seed redirected) but ok records exist, the first ok record becomes
the root instead — and, because the children loop skips only records
whose url equals the start URL, that fallback root is also listed among
its own children. -/
theorem C3_flat_sitemap_ok_children (env : CrawlEnv) (u0 : Str) (fuel : Nat)
    (hdone : crawlDone (crawlLoop fuel env (initState u0)) = true)
    (hspa : isSPAOf (prepPages u0 (crawlLoop fuel env (initState u0))) = true) :
    (∀ rp : PageRec,
      (((prepPages u0 (crawlLoop fuel env (initState u0))).map Prod.snd).filter
          (fun p => p.status == .ok)).find? (fun p => p.url == u0) = some rp →
      ∃ kids,
        (finishCrawl u0 (crawlLoop fuel env (initState u0))).sitemap =
          SitemapNode.mk rp.id rp.url (if rp.title = [] then rp.url else rp.title) 0 rp.status
            (some kids) ∧
        (∀ c ∈ kids, nodeChildren c = none) ∧
        (kids.map nodeUrl).Perm
          (((((prepPages u0 (crawlLoop fuel env (initState u0))).map Prod.snd).filter
              (fun p => p.status == .ok)).filter
                (fun p => !(p.url == u0))).map (fun p => p.url))) ∧
    (∀ (p0 : PageRec) (prest : List PageRec),
      (((prepPages u0 (crawlLoop fuel env (initState u0))).map Prod.snd).filter
          (fun p => p.status == .ok)).find? (fun p => p.url == u0) = none →
      ((prepPages u0 (crawlLoop fuel env (initState u0))).map Prod.snd).filter
          (fun p => p.status == .ok) = p0 :: prest →
      ∃ kids,
        (finishCrawl u0 (crawlLoop fuel env (initState u0))).sitemap =
          SitemapNode.mk p0.id p0.url (if p0.title = [] then p0.url else p0.title) 0 p0.status
            (some kids) ∧
        (∀ c ∈ kids, nodeChildren c = none) ∧
        p0.url ∈ kids.map nodeUrl) := by
  constructor
  · intro rp hfind
    rw [finishCrawl_sitemap_spa hspa]
    exact buildFlatSitemap_spec_found _ _ hfind
  · intro p0 prest hfind hpa
    rw [finishCrawl_sitemap_spa hspa]
    exact buildFlatSitemap_fallback _ _ hfind hpa

/-- An all-ok SPA crawl: the seed links to a hash route, both pages ok. -/
def envSpaOk : CrawlEnv :=
  { fetch := fun u =>
      if u == str "https://s.a" then
        { url := u, title := str "A", status := .ok, links := [str "https://s.a/#/r"] }
      else { url := u, title := str "R", status := .ok, links := [] },
    robotsAllowed := fun _ => true,
    internal := fun l => l == str "https://s.a/#/r",
    maxDepth := 3 }

/-- A "redirecting" SPA seed: the fetch of the start URL resolves with a
different final url, so no stored record's url equals the start URL. -/
def envSpaRedirect : CrawlEnv :=
  { fetch := fun _ =>
      { url := str "https://s.a/home", title := str "H", status := .ok,
        links := [str "https://s.a/#/r"] },
    robotsAllowed := fun _ => true,
    internal := fun _ => false,
    maxDepth := 3 }

/-- C3 witness: both regimes at concrete crawls — the found case on a
two-page SPA crawl, and the fallback case on a redirecting seed, where the
fallback root's own url appears among its children. -/
theorem C3_flat_sitemap_ok_children_witness :
    (∃ kids,
      (finishCrawl (str "https://s.a")
          (crawlLoop 3 envSpaOk (initState (str "https://s.a")))).sitemap =
        SitemapNode.mk (str "node-0") (str "https://s.a")
          (if (str "A") = [] then str "https://s.a" else str "A") 0 .ok (some kids) ∧
      (∀ c ∈ kids, nodeChildren c = none) ∧
      (kids.map nodeUrl).Perm
        (((((prepPages (str "https://s.a")
            (crawlLoop 3 envSpaOk (initState (str "https://s.a")))).map Prod.snd).filter
              (fun p => p.status == .ok)).filter
                (fun p => !(p.url == str "https://s.a"))).map (fun p => p.url))) ∧
    (∃ kids,
      (finishCrawl (str "https://s.a")
          (crawlLoop 2 envSpaRedirect (initState (str "https://s.a")))).sitemap =
        SitemapNode.mk (str "node-0") (str "https://s.a/home")
          (if (str "H") = [] then str "https://s.a/home" else str "H") 0 .ok (some kids) ∧
      (∀ c ∈ kids, nodeChildren c = none) ∧
      str "https://s.a/home" ∈ kids.map nodeUrl) :=
  ⟨(C3_flat_sitemap_ok_children envSpaOk (str "https://s.a") 3 (by decide) (by decide)).1
      { url := str "https://s.a", title := str "A", status := .ok, depth := 0,
        links := [str "https://s.a/#/r"], id := str "node-0", parentId := none }
      (by decide),
   (C3_flat_sitemap_ok_children envSpaRedirect (str "https://s.a") 2 (by decide) (by decide)).2
      { url := str "https://s.a/home", title := str "H", status := .ok, depth := 0,
        links := [str "https://s.a/#/r"], id := str "node-0", parentId := none }
      [] (by decide) (by decide)⟩
